import Mathlib

/-!
tunn: local proxy frontends (SOCKS5 / HTTP) and shared scaffolding

A shallow embedding of `pkg/proxy/socks5.go`, `pkg/proxy/http.go`,
`pkg/proxy/server.go`, `pkg/utils/network.go`, `pkg/config/config.go` and
`pkg/connection/establisher.go`.

Conventions.
* A Go `string` or `[]byte` is a list of bytes, `Bytes`; a byte is a natural
  number, and theorems that depend on the range state `< 256` explicitly.
* A client connection is the sequence of bytes the client delivers before the
  next read fails (end of stream, reset or deadline).
* A handler is a function from that input (and from the outcome of the
  backend `Dial`) to the ordered list of externally visible calls it makes,
  `List Event`. `fmt.Printf` progress lines are not recorded.
* The forwarder is a transition system: its two copying goroutines and the
  waiting caller take turns in any order (a schedule), and a goroutine blocked
  in `Read` makes no progress.
* Functions of the Go standard library (`net.JoinHostPort`,
  `net.SplitHostPort`, `strconv.Atoi`, `strconv.Itoa`, `strings.ToLower`,
  `io.ReadFull`, the verbs `%d` and `%x`, `http.Header`) follow their
  documented behaviour; `int` is 64 bits wide.
-/

namespace Tunn

/-- A Go `string` / `[]byte`. -/
abbrev Bytes := List Nat

/-- The bytes of an ASCII literal. -/
def str (s : String) : Bytes := s.toList.map Char.toNat

/-! ## Number formatting (`strconv.Itoa`, `fmt` verbs `%d` and `%x`) -/

/-- One digit in lower case: `'0'..'9'`, then `'a'..`. -/
def digitByte (d : Nat) : Nat := if d < 10 then 48 + d else 87 + d

/-- Most significant digit first, no leading zeros; `fuel` bounds the loop. -/
def formatBits (base : Nat) : Nat → Nat → Bytes → Bytes
  | 0, _, acc => acc
  | fuel + 1, n, acc =>
    if n / base = 0 then digitByte (n % base) :: acc
    else formatBits base fuel (n / base) (digitByte (n % base) :: acc)

/-- The verb `%d` on an unsigned value. -/
def decimal (n : Nat) : Bytes := formatBits 10 (n + 1) n []

/-- The verb `%x` on an unsigned value. -/
def hex (n : Nat) : Bytes := formatBits 16 (n + 1) n []

/-- The function `strconv.Itoa`. -/
def Itoa (i : Int) : Bytes :=
  if i < 0 then 45 :: decimal i.natAbs else decimal i.natAbs

/-- The function `binary.BigEndian.Uint16` on a 2-byte slice. -/
def Uint16 (b : Bytes) : Nat := (b.getD 1 0 ||| b.getD 0 0 <<< 8) % 65536

/-! ## `net.JoinHostPort` -/

/-- The function `net.JoinHostPort`: a host containing a colon is bracketed. -/
def JoinHostPort (host port : Bytes) : Bytes :=
  if 58 ∈ host then str "[" ++ host ++ str "]:" ++ port
  else host ++ str ":" ++ port

/-! ## Observable calls -/

/-- Value carried by a Go panic, as seen by `recover()`; `none` is `nil`. -/
abbrev PanicValue := Option Bytes

/-- Externally visible calls of a connection handler, in program order. -/
inductive Event
  /-- The call `clientConn.SetReadDeadline(time.Now().Add(timeout))`. -/
  | setReadDeadline (timeout : Nat)
  /-- The call `clientConn.SetWriteDeadline(time.Now().Add(timeout))`. -/
  | setWriteDeadline (timeout : Nat)
  /-- The call `clientConn.Write(data)`. -/
  | write (data : Bytes)
  /-- The call `ssh.Dial(network, address)`. -/
  | dial (network address : Bytes)
  /-- The call `sshConn.Write(data)`. -/
  | backendWrite (data : Bytes)
  /-- The call `io.Copy(sshConn, req.Body)` followed by `req.Body.Close()`. -/
  | copyBody
  /-- The call `forwardData(clientConn, sshConn)`. -/
  | forwardData
  /-- The call `forwardResponse(clientConn, sshConn)`. -/
  | forwardResponse
  /-- The call `sshConn.Close()`. -/
  | closeBackend
  /-- The call `clientConn.Close()`. -/
  | closeClient
  /-- The line printed after `recover()` returned a non-nil value. -/
  | reportPanic (clientType : Bytes) (r : Bytes)
  deriving DecidableEq, Repr

/-! ## Reading from the client connection -/

/-- The call `clientConn.Read(buf)` with a 1-byte buffer. -/
def read1 (stream : Bytes) : Option (Nat × Bytes) :=
  match stream with
  | [] => none
  | b :: rest => some (b, rest)

/-- The call `io.ReadFull(clientConn, buf)` with `len(buf) = n`. -/
def ReadFull (n : Nat) (stream : Bytes) : Option (Bytes × Bytes) :=
  if n ≤ stream.length then some (stream.take n, stream.drop n) else none

/-! ## `pkg/proxy/server.go` -/

/-- How a function body left: by returning, or by a panic. -/
inductive Exit
  | returned
  | panicked (v : PanicValue)
  deriving DecidableEq, Repr

/-- The method `Server.OpenSSHChannel`; `dialOk` is whether `ssh.Dial` succeeds.
The deferred `sshConn.Close()` listed after `forwardData` is made once
`forwardData` returns; when it returns is the subject of `Forward`. -/
def OpenSSHChannel (dialOk : Bool) (host : Bytes) (port : Int) : List Event :=
  let address := JoinHostPort host (Itoa port)
  Event.dial (str "tcp") address ::
    (if dialOk then [Event.forwardData, Event.closeBackend] else [])

/-- Go's rule for a function body with one deferred call. The deferred call
runs when the body returns and when it panics; it is given what `recover()`
returns inside it (`none`, Go's `nil`, when the body did not panic). A panic
stops at this function when the deferred call invoked `recover()`, and
propagates to the caller otherwise. -/
def withDefer (body : List Event × Exit) (deferred : PanicValue → List Event)
    (callsRecover : Bool) : List Event × Exit :=
  match body.2 with
  | Exit.returned => (body.1 ++ deferred none, Exit.returned)
  | Exit.panicked v =>
    (body.1 ++ deferred v, if callsRecover then Exit.returned else Exit.panicked v)

/-- The method `Server.HandleClientWithTimeout`; `handler` is the trace and
exit of the closure it is given. The deferred function closes the connection,
then calls `recover()` and reports a non-nil value. -/
def HandleClientWithTimeout (clientType : Bytes) (timeout : Nat)
    (handler : List Event × Exit) : List Event × Exit :=
  withDefer
    ([Event.setReadDeadline timeout, Event.setWriteDeadline timeout] ++ handler.1, handler.2)
    (fun r =>
      Event.closeClient ::
        (match r with
         | some value => [Event.reportPanic clientType value]
         | none => []))
    true

/-! ## `pkg/proxy/socks5.go` -/

namespace SOCKS5

/-- The method `SOCKS5.sendError`. -/
def sendError (errCode : Nat) : List Event :=
  [Event.write [5, errCode, 0, 1, 0, 0, 0, 0, 0, 0]]

/-- The method `SOCKS5.sendSuccess`. -/
def sendSuccess : List Event :=
  [Event.write [5, 0, 0, 1, 0, 0, 0, 0, 0, 0]]

/-- The `switch atyp` of `handleSOCKS5`: the decoded host and the rest of the
stream, or the calls made on the aborting path. -/
def decodeHost (atyp : Nat) (stream : Bytes) : Except (List Event) (Bytes × Bytes) :=
  if atyp = 1 then
    match ReadFull 4 stream with
    | none => .error (sendError 1)
    | some (addr, rest) =>
      .ok (decimal (addr.getD 0 0) ++ str "." ++ decimal (addr.getD 1 0) ++ str "."
            ++ decimal (addr.getD 2 0) ++ str "." ++ decimal (addr.getD 3 0), rest)
  else if atyp = 3 then
    match read1 stream with
    | none => .error (sendError 1)
    | some (length, rest) =>
      match ReadFull length rest with
      | none => .error (sendError 1)
      | some (domain, rest) => .ok (domain, rest)
  else if atyp = 4 then
    match ReadFull 16 stream with
    | none => .error (sendError 1)
    | some (addr, rest) =>
      .ok (str "[" ++ hex (Uint16 ((addr.drop 0).take 2)) ++ str ":"
            ++ hex (Uint16 ((addr.drop 2).take 2)) ++ str ":"
            ++ hex (Uint16 ((addr.drop 4).take 2)) ++ str ":"
            ++ hex (Uint16 ((addr.drop 6).take 2)) ++ str ":"
            ++ hex (Uint16 ((addr.drop 8).take 2)) ++ str ":"
            ++ hex (Uint16 ((addr.drop 10).take 2)) ++ str ":"
            ++ hex (Uint16 ((addr.drop 12).take 2)) ++ str ":"
            ++ hex (Uint16 ((addr.drop 14).take 2)) ++ str "]", rest)
  else .error (sendError 8)

/-- The method `SOCKS5.handleSOCKS5`, entered after the version byte. -/
def handleSOCKS5 (dialOk : Bool) (stream : Bytes) : List Event :=
  match read1 stream with
  | none => []
  | some (nmethods, stream) =>
    match ReadFull nmethods stream with
    | none => []
    | some (_, stream) =>
      Event.write [5, 0] ::
        (match ReadFull 4 stream with
         | none => []
         | some (requestHeader, stream) =>
           let cmd := requestHeader.getD 1 0
           let atyp := requestHeader.getD 3 0
           if cmd ≠ 1 then sendError 7
           else
             match decodeHost atyp stream with
             | .error aborted => aborted
             | .ok (host, stream) =>
               match ReadFull 2 stream with
               | none => sendError 1
               | some (portBytes, _) =>
                 let port : Int := (Uint16 portBytes : Nat)
                 sendSuccess ++ OpenSSHChannel dialOk host port)

/-- The closure `handleClient` passes to `HandleClientWithTimeout`. -/
def handler (dialOk : Bool) (stream : Bytes) : List Event :=
  match read1 stream with
  | none => []
  | some (versionByte, stream) =>
    if versionByte = 5 then handleSOCKS5 dialOk stream else []

/-- The method `SOCKS5.handleClient` (10 second negotiation deadline). -/
def handleClient (dialOk : Bool) (stream : Bytes) : List Event × Exit :=
  HandleClientWithTimeout (str "SOCKS5") 10 (handler dialOk stream, Exit.returned)

end SOCKS5

/-! ## Go library functions used by the HTTP frontend -/

/-- Index of the first occurrence of byte `c` (`bytealg.IndexByteString`). -/
def indexByte (s : Bytes) (c : Nat) : Option Nat :=
  match s with
  | [] => none
  | x :: rest => if x = c then some 0 else (indexByte rest c).map (· + 1)

/-- Index of the last occurrence of byte `c` (`bytealg.LastIndexByteString`). -/
def lastIndexByte (s : Bytes) (c : Nat) : Option Nat :=
  match s with
  | [] => none
  | x :: rest =>
    match lastIndexByte rest c with
    | some i => some (i + 1)
    | none => if x = c then some 0 else none

/-- The function `net.SplitHostPort`, following the Go standard library: the
port starts after the last colon; a host in brackets must end right before
that colon; no other bracket may occur. The error carries Go's reason. -/
def SplitHostPort (hostport : Bytes) : Except String (Bytes × Bytes) :=
  match lastIndexByte hostport 58 with
  | none => .error "missing port in address"
  | some i =>
    let checked (host : Bytes) (j k : Nat) : Except String (Bytes × Bytes) :=
      if 91 ∈ hostport.drop j then .error "unexpected '[' in address"
      else if 93 ∈ hostport.drop k then .error "unexpected ']' in address"
      else .ok (host, hostport.drop (i + 1))
    if hostport.head? = some 91 then
      match indexByte hostport 93 with
      | none => .error "missing ']' in address"
      | some e =>
        if e + 1 = hostport.length then .error "missing port in address"
        else if e + 1 = i then checked ((hostport.take e).drop 1) 1 (e + 1)
        else if hostport.getD (e + 1) 0 = 58 then .error "too many colons in address"
        else .error "missing port in address"
    else
      let host := hostport.take i
      if 58 ∈ host then .error "too many colons in address"
      else checked host 0 0

/-- One step of the digit loop of `strconv.Atoi`: `ch -= '0'`, fail when
`ch > 9`, else `n = n*10 + ch`. -/
def digitStep (acc : Option Nat) (ch : Nat) : Option Nat :=
  match acc with
  | none => none
  | some n => if 48 ≤ ch ∧ ch ≤ 57 then some (n * 10 + (ch - 48)) else none

/-- Value of a string of decimal digits, `none` on any other byte. -/
def digitsValue (ds : Bytes) : Option Nat :=
  ds.foldl digitStep (some 0)

/-- The leading `+` or `-` of a number: whether it is negative, and the rest. -/
def splitSign (s : Bytes) : Bool × Bytes :=
  match s with
  | 43 :: t => (false, t)
  | 45 :: t => (true, t)
  | _ => (false, s)

/-- The function `strconv.Atoi` with a 64-bit `int`: an optional sign, then one
or more decimal digits, the value within `-2^63 .. 2^63 - 1`; `none` is the
error return. -/
def Atoi (s : Bytes) : Option Int :=
  let signed := splitSign s
  if signed.2 = [] then none
  else
    match digitsValue signed.2 with
    | none => none
    | some un =>
      if signed.1 then (if un ≤ 2 ^ 63 then some (-(un : Int)) else none)
      else (if un < 2 ^ 63 then some (un : Int) else none)

/-- The function `strings.ToLower` on ASCII input (header names of a parsed
request are HTTP tokens): `A..Z` map to `a..z`, other bytes are kept. -/
def ToLower (s : Bytes) : Bytes :=
  s.map (fun c => if 65 ≤ c ∧ c ≤ 90 then c + 32 else c)

/-! ## `pkg/utils/network.go` -/

/-- The function `utils.ParseHostPort`; `none` is the error return. -/
def ParseHostPort (hostPort : Bytes) (defaultPort : Int) : Option (Bytes × Int) :=
  match SplitHostPort hostPort with
  | .error _ => some (hostPort, defaultPort)
  | .ok (host, portStr) =>
    if portStr = str "https" then some (host, 443)
    else if portStr = str "http" then some (host, 80)
    else
      match Atoi portStr with
      | none => none
      | some port => some (host, port)

/-! ## `pkg/proxy/http.go` -/

namespace HTTP

/-- What `parseTarget` reads from `url.Parse(req.URL.String())`. -/
structure ParsedURL where
  /-- The value `parsedURL.Hostname()`. -/
  Hostname : Bytes
  /-- The value `parsedURL.Port()`. -/
  Port : Bytes
  /-- The value `parsedURL.Scheme`. -/
  Scheme : Bytes
  /-- The value `parsedURL.RequestURI()`. -/
  RequestURI : Bytes
  deriving DecidableEq, Repr

/-- What the handler reads from `req.URL`. -/
structure URL where
  /-- The value `req.URL.IsAbs()`. -/
  IsAbs : Bool
  /-- The value `url.Parse(req.URL.String())`; `none` is the error return. -/
  reparsed : Option ParsedURL
  /-- The value `req.URL.RequestURI()`. -/
  RequestURI : Bytes
  deriving DecidableEq, Repr

/-- A Go `http.Header`, `map[string][]string`, as its list of entries with
pairwise distinct keys. The position of an entry in the list carries no
meaning: a Go map has no order. -/
abbrev Header := List (Bytes × List Bytes)

/-- The fields of `*http.Request` the handler reads. -/
structure Request where
  Method : Bytes
  Host : Bytes
  URL : URL
  Proto : Bytes
  Header : Header
  /-- Whether `req.Body != nil`. -/
  hasBody : Bool
  deriving DecidableEq, Repr

/-- What the handler cannot decide by itself. -/
structure Env where
  /-- Whether the `clientConn.Write` of the CONNECT reply succeeds. -/
  clientWriteOk : Bool
  /-- Whether `ssh.Dial` succeeds. -/
  dialOk : Bool
  /-- Whether `sshConn.Write` succeeds. -/
  backendWriteOk : Bool
  /-- Whether `io.Copy(sshConn, req.Body)` succeeds. -/
  bodyCopyOk : Bool
  /-- The entries of `req.Header` in the order in which `range req.Header`
  yields them: some permutation of the map, chosen by the Go runtime. -/
  rangeHeader : Header
  deriving DecidableEq, Repr

/-- The method `HTTP.sendError`. -/
def sendError (statusCode : Nat) (statusText : Bytes) : List Event :=
  [Event.write (str "HTTP/1.1 " ++ decimal statusCode ++ str " " ++ statusText
    ++ str "\r\nContent-Length: 0\r\nConnection: close\r\n\r\n")]

/-- The method `HTTP.handleConnect`. -/
def handleConnect (env : Env) (req : Request) : List Event :=
  match ParseHostPort req.Host 443 with
  | none => sendError 400 (str "Bad Request")
  | some (host, portInt) =>
    Event.write (str "HTTP/1.1 200 Connection established\r\n\r\n") ::
      (if env.clientWriteOk then OpenSSHChannel env.dialOk host portInt else [])

/-- The method `HTTP.parseTarget`; `none` is the error return. -/
def parseTarget (req : Request) : Option (Bytes × Int × Bytes) :=
  if req.URL.IsAbs then
    match req.URL.reparsed with
    | none => none
    | some parsedURL =>
      let host := parsedURL.Hostname
      if parsedURL.Port ≠ [] then
        match Atoi parsedURL.Port with
        | none => none
        | some port => some (host, port, parsedURL.RequestURI)
      else
        some (host, if parsedURL.Scheme = str "https" then 443 else 80, parsedURL.RequestURI)
  else
    if req.Host = [] then none
    else
      match ParseHostPort req.Host 80 with
      | none => none
      | some (host, port) => some (host, port, req.URL.RequestURI)

/-- The contents of `requestBuilder` when `forwardRequest` writes it: request
line, one line per value of every header entry whose lower-cased name is not
`proxy-connection`, entries taken in the order `range` yields them, then the
empty line. -/
def requestHead (entries : Header) (req : Request) (targetPath : Bytes) : Bytes :=
  let requestLine := req.Method ++ str " " ++ targetPath ++ str " " ++ req.Proto ++ str "\r\n"
  let withHeaders := entries.foldl (fun builder entry =>
    if ToLower entry.1 = str "proxy-connection" then builder
    else entry.2.foldl (fun builder value =>
      builder ++ (entry.1 ++ str ": " ++ value ++ str "\r\n")) builder) requestLine
  withHeaders ++ str "\r\n"

/-- The method `HTTP.forwardRequest`: its calls, and whether it returned `nil`. -/
def forwardRequest (env : Env) (req : Request) (targetPath : Bytes) : List Event × Bool :=
  let written := Event.backendWrite (requestHead env.rangeHeader req targetPath)
  if !env.backendWriteOk then ([written], false)
  else if req.hasBody then ([written, Event.copyBody], env.bodyCopyOk)
  else ([written], true)

/-- The method `HTTP.handleRequest`. -/
def handleRequest (env : Env) (req : Request) : List Event :=
  match parseTarget req with
  | none => sendError 400 (str "Bad Request")
  | some (targetHost, targetPort, targetPath) =>
    let address := JoinHostPort targetHost (Itoa targetPort)
    Event.dial (str "tcp") address ::
      (if !env.dialOk then sendError 502 (str "Bad Gateway")
       else
         let forwarded := forwardRequest env req targetPath
         forwarded.1
           ++ (if forwarded.2 then [Event.forwardResponse]
               else sendError 502 (str "Bad Gateway"))
           ++ [Event.closeBackend])

/-- The closure `handleClient` passes to `HandleClientWithTimeout`; `parsed` is
the result of `http.ReadRequest`, `none` being its error return. -/
def handler (env : Env) (parsed : Option Request) : List Event :=
  match parsed with
  | none => sendError 400 (str "Bad Request")
  | some req =>
    if req.Method = str "CONNECT" then handleConnect env req else handleRequest env req

/-- The method `HTTP.handleClient` (30 second negotiation deadline). -/
def handleClient (env : Env) (parsed : Option Request) : List Event × Exit :=
  HandleClientWithTimeout (str "HTTP") 30 (handler env parsed, Exit.returned)

/-- The method `Header.Add` of `net/http`: append `value` to the values stored
under `key`, creating the entry when the key is new. -/
def Header.Add (h : Header) (key value : Bytes) : Header :=
  match h with
  | [] => [(key, [value])]
  | (k, vs) :: rest =>
    if k = key then (k, vs ++ [value]) :: rest else (k, vs) :: Header.Add rest key value

/-- The statement `delete(h, key)`. -/
def Header.Del (h : Header) (key : Bytes) : Header :=
  h.filter (fun entry => decide (entry.1 ≠ key))

/-- The lookup `h[key]`; `none` when the key is absent. -/
def Header.values (h : Header) (key : Bytes) : Option (List Bytes) :=
  (h.find? (fun entry => decide (entry.1 = key))).map Prod.snd

/-- The assignment `h[key] = values`. -/
def Header.assign (h : Header) (key : Bytes) (values : List Bytes) : Header :=
  Header.Del h key ++ [(key, values)]

/-- The function `validHeaderFieldByte` of `net/textproto`: the bytes of an
HTTP token. -/
def validHeaderFieldByte (c : Nat) : Bool :=
  decide ((48 ≤ c ∧ c ≤ 57) ∨ (65 ≤ c ∧ c ≤ 90) ∨ (97 ≤ c ∧ c ≤ 122)) ||
    decide (c ∈ [33, 35, 36, 37, 38, 39, 42, 43, 45, 46, 94, 95, 96, 124, 126])

/-- The case loop of `canonicalMIMEHeaderKey`: upper case for the first
letter and for a letter after a dash, lower case elsewhere. -/
def canonicalCase (upper : Bool) (key : Bytes) : Bytes :=
  match key with
  | [] => []
  | c :: rest =>
    let c := if upper ∧ 97 ≤ c ∧ c ≤ 122 then c - 32
      else if ¬ upper ∧ 65 ≤ c ∧ c ≤ 90 then c + 32 else c
    c :: canonicalCase (decide (c = 45)) rest

/-- The function `canonicalMIMEHeaderKey` of `net/textproto` on the name of a
header line that the reader accepts: a name made of token bytes gets the
canonical case, any other accepted name (one with a blank) is kept as sent. -/
def CanonicalMIMEHeaderKey (key : Bytes) : Bytes :=
  if key.all validHeaderFieldByte then canonicalCase true key else key

/-- The header fields of a request with their names made canonical. A field is
a name as sent and a value without the blanks around it, as
`textproto.Reader.ReadMIMEHeader` reads them; a line with an empty name is
skipped by the reader. -/
def canonicalFields (fields : List (Bytes × Bytes)) : List (Bytes × Bytes) :=
  (fields.filter (fun field => decide (field.1 ≠ []))).map
    (fun field => (CanonicalMIMEHeaderKey field.1, field.2))

/-- The map `textproto.Reader.ReadMIMEHeader` returns: every field added under
its canonical name, in the order of the request. -/
def ReadMIMEHeader (fields : List (Bytes × Bytes)) : Header :=
  (canonicalFields fields).foldl (fun h field => Header.Add h field.1 field.2) []

/-- The function `fixPragmaCacheControl` of `net/http`: a request whose first
`Pragma` value is `no-cache` and that has no `Cache-Control` gets
`Cache-Control: no-cache`. -/
def fixPragmaCacheControl (h : Header) : Header :=
  match Header.values h (str "Pragma") with
  | some (first :: _) =>
    if first = str "no-cache" ∧ Header.values h (str "Cache-Control") = none then
      Header.assign h (str "Cache-Control") [str "no-cache"]
    else h
  | _ => h

/-- What `readTransfer` of `net/http` does to the header of a request it
accepts; `http11` is whether the protocol is at least HTTP/1.1.
`Transfer-Encoding` is taken out of the header (the request is chunked when
it was there and `http11` holds); several equal `Content-Length` values become
one; a chunked request loses `Content-Length` and `Trailer`. -/
def readTransfer (http11 : Bool) (h : Header) : Header :=
  let chunked := (Header.values h (str "Transfer-Encoding")).isSome && http11
  let h := Header.Del h (str "Transfer-Encoding")
  let h :=
    match Header.values h (str "Content-Length") with
    | some (first :: _ :: _) => Header.assign h (str "Content-Length") [first]
    | _ => h
  let h := if chunked then Header.Del h (str "Content-Length") else h
  if chunked then Header.Del h (str "Trailer") else h

/-- The header map `req.Header` of the request `http.ReadRequest` returns for a
request with the given header fields, in the order of the request:
`ReadMIMEHeader`, then `fixPragmaCacheControl` and `readTransfer`, then
`delete(req.Header, "Host")`. Requests that `http.ReadRequest` rejects have no
such map: the handler answers them with 400. -/
def headerOf (http11 : Bool) (fields : List (Bytes × Bytes)) : Header :=
  Header.Del (readTransfer http11 (fixPragmaCacheControl (ReadMIMEHeader fields))) (str "Host")

/-- The fields of the request under one canonical name, in the order of the
request. -/
def fieldsNamed (fields : List (Bytes × Bytes)) (name : Bytes) : List (Bytes × Bytes) :=
  (canonicalFields fields).filter (fun field => decide (field.1 = name))

/-- Whether `http.ReadRequest` reads the request as chunked: it has a
`Transfer-Encoding` field and its protocol is at least HTTP/1.1. -/
def isChunked (http11 : Bool) (fields : List (Bytes × Bytes)) : Bool :=
  !(fieldsNamed fields (str "Transfer-Encoding")).isEmpty && http11

/-- The names under which `http.ReadRequest` removes, rewrites or adds entries
by itself for this request: `Host` and `Transfer-Encoding`; `Content-Length`
when the request is chunked or has several `Content-Length` fields; `Trailer`
when the request is chunked; `Cache-Control` when the request has no such
field and its first `Pragma` value is `no-cache`. -/
def isRewritten (http11 : Bool) (fields : List (Bytes × Bytes)) (name : Bytes) : Bool :=
  decide (name = str "Host") || decide (name = str "Transfer-Encoding") ||
  (decide (name = str "Content-Length") &&
    (isChunked http11 fields || decide (2 ≤ (fieldsNamed fields (str "Content-Length")).length))) ||
  (decide (name = str "Trailer") && isChunked http11 fields) ||
  (decide (name = str "Cache-Control") && (fieldsNamed fields (str "Cache-Control")).isEmpty &&
    decide (((fieldsNamed fields (str "Pragma")).head?).map Prod.snd = some (str "no-cache")))

/-- One header line as `forwardRequest` formats it. -/
def fieldLine (field : Bytes × Bytes) : Bytes :=
  field.1 ++ str ": " ++ field.2 ++ str "\r\n"

/-- The name is `Proxy-Connection` in some mix of upper and lower case. -/
def isProxyConnection (name : Bytes) : Bool :=
  ToLower name = str "proxy-connection"

/-- The header fields held by a list of map entries, entry by entry. -/
def fieldsOf (entries : Header) : List (Bytes × Bytes) :=
  entries.flatMap (fun entry => entry.2.map (fun value => (entry.1, value)))

/-- The request line `forwardRequest` writes. -/
def requestLine (req : Request) (targetPath : Bytes) : Bytes :=
  req.Method ++ str " " ++ targetPath ++ str " " ++ req.Proto ++ str "\r\n"

end HTTP

/-! ## `Server.forwardData` in `pkg/proxy/server.go` -/

namespace Forward

/-- What one connection does while the forwarder runs. -/
structure Conn where
  /-- The chunks that successive `Read` calls deliver. -/
  inbound : List Bytes
  /-- After these chunks `Read` returns `io.EOF` or an error (`true`), or
  blocks for ever because the peer neither sends nor closes (`false`). -/
  ends : Bool
  /-- The number of `Write` calls that succeed before `Write` returns an
  error; `none` when every `Write` succeeds. -/
  writes : Option Nat
  deriving DecidableEq, Repr

/-- One goroutine `io.Copy(dst, src)` with its deferred `wg.Done()`. -/
structure Copy where
  /-- The chunks of `src` not yet read. -/
  pending : List Bytes
  /-- Whether `src.Read` fails once `pending` is used up (else it blocks). -/
  srcEnds : Bool
  /-- The writes `dst` still accepts; `none` is no limit. -/
  budget : Option Nat
  /-- Whether `io.Copy` has returned and `wg.Done()` has run. -/
  done : Bool
  deriving DecidableEq, Repr

/-- One turn of the loop of `io.Copy`: read a chunk and write it; return on a
failed write, and on a failed read (end of stream included). With nothing to
read from a source that stays open, the goroutine is blocked and nothing
changes. -/
def Copy.step (c : Copy) : Copy :=
  if c.done then c
  else
    match c.pending with
    | [] => if c.srcEnds then { c with done := true } else c
    | _ :: rest =>
      match c.budget with
      | none => { c with pending := rest }
      | some 0 => { c with done := true }
      | some (k + 1) => { c with pending := rest, budget := some k }

/-- The forwarder: its two goroutines, the `sync.WaitGroup` counter, and
whether `wg.Wait()`, and with it `forwardData`, has returned. -/
structure State where
  /-- The goroutine `io.Copy(conn1, conn2)`. -/
  toConn1 : Copy
  /-- The goroutine `io.Copy(conn2, conn1)`. -/
  toConn2 : Copy
  /-- The counter of the wait group. -/
  counter : Nat
  /-- Whether `wg.Wait()` has returned. -/
  returned : Bool
  deriving DecidableEq, Repr

/-- Who takes the next turn. -/
inductive Thread
  /-- The goroutine `io.Copy(conn1, conn2)`. -/
  | copyToConn1
  /-- The goroutine `io.Copy(conn2, conn1)`. -/
  | copyToConn2
  /-- The caller, in `wg.Wait()`. -/
  | waiter
  deriving DecidableEq, Repr

/-- The state after `wg.Add(2)` and the two `go` statements. -/
def start (conn1 conn2 : Conn) : State :=
  { toConn1 := { pending := conn2.inbound, srcEnds := conn2.ends, budget := conn1.writes,
                 done := false },
    toConn2 := { pending := conn1.inbound, srcEnds := conn1.ends, budget := conn2.writes,
                 done := false },
    counter := 2,
    returned := false }

/-- One turn of one thread. A goroutine whose `io.Copy` returns in this turn
runs `wg.Done()`; `wg.Wait()` returns when the counter is zero. -/
def step (t : Thread) (s : State) : State :=
  match t with
  | Thread.copyToConn1 =>
    let c := s.toConn1.step
    { s with toConn1 := c,
             counter := if c.done && !s.toConn1.done then s.counter - 1 else s.counter }
  | Thread.copyToConn2 =>
    let c := s.toConn2.step
    { s with toConn2 := c,
             counter := if c.done && !s.toConn2.done then s.counter - 1 else s.counter }
  | Thread.waiter => if s.counter = 0 then { s with returned := true } else s

/-- The threads take turns as listed in the schedule, from state `s`. -/
def run (schedule : List Thread) (s : State) : State :=
  schedule.foldl (fun s t => step t s) s

/-- The method `Server.forwardData` under a schedule of its three threads. -/
def forwardData (conn1 conn2 : Conn) (schedule : List Thread) : State :=
  run schedule (start conn1 conn2)

/-- Whether a copy can still return: it has, or its source ends, or a write
fails before the pending chunks are used up. -/
def Copy.canFinish (c : Copy) : Bool :=
  c.done || c.srcEnds ||
    (match c.budget with
     | none => false
     | some k => decide (k < c.pending.length))

/-- Whether `io.Copy(dst, src)` returns: `src` ends, or a write to `dst`
fails while `src` still delivers. -/
def finishes (dst src : Conn) : Bool :=
  src.ends ||
    (match dst.writes with
     | none => false
     | some k => decide (k < src.inbound.length))

/-- What every reachable state of the forwarder satisfies: the counter counts
the goroutines still copying, the wait has returned only with both of them
done, and `f1`, `f2` tell whether each goroutine can ever return. -/
def Invariant (f1 f2 : Bool) (s : State) : Prop :=
  s.counter = (if s.toConn1.done then 0 else 1) + (if s.toConn2.done then 0 else 1) ∧
  (s.returned = true → s.toConn1.done = true ∧ s.toConn2.done = true) ∧
  s.toConn1.canFinish = f1 ∧ s.toConn2.canFinish = f2

end Forward

/-! ## `pkg/config/config.go` -/

/-- The struct `SSHConfig`. -/
structure SSHConfig where
  Host : Bytes
  Port : Int
  Username : Bytes
  Password : Bytes
  deriving DecidableEq, Repr

/-- The struct `ListenerConfig`. -/
structure ListenerConfig where
  Port : Int
  ProxyType : Bytes
  deriving DecidableEq, Repr

/-- The struct `Config`. -/
structure Config where
  Mode : Bytes
  ProxyHost : Bytes
  ProxyPort : Bytes
  SSH : SSHConfig
  Listener : ListenerConfig
  HTTPPayload : Bytes
  ConnectionTimeout : Int
  deriving DecidableEq, Repr

/-- The method `Config.validate`; `none` is the `nil` error, `some message` an
error with that message. -/
def Config.validate (c : Config) : Option Bytes :=
  if ¬ (c.Mode = str "direct" ∨ c.Mode = str "proxy") then
    some (str "invalid mode '" ++ c.Mode ++ str "', must be one of: direct, proxy")
  else if c.SSH.Host = [] then some (str "SSH host is required")
  else if c.SSH.Username = [] then some (str "SSH username is required")
  else if c.SSH.Password = [] then some (str "SSH password is required")
  else if c.Mode = str "proxy" ∧ (c.ProxyHost = [] ∨ c.ProxyPort = []) then
    some (str "proxyHost and proxyPort are required for proxy mode")
  else none

/-- The method `Config.setDefaults`. -/
def Config.setDefaults (c : Config) : Config :=
  let c := if c.SSH.Port = 0 then { c with SSH := { c.SSH with Port := 22 } } else c
  let c := if c.Listener.Port = 0 then { c with Listener := { c.Listener with Port := 1080 } }
    else c
  let c := if c.Listener.ProxyType = [] then
      { c with Listener := { c.Listener with ProxyType := str "http" } }
    else c
  if c.ConnectionTimeout = 0 then { c with ConnectionTimeout := 30 } else c

/-- The function `LoadConfig` from the point where the file has been parsed
into `config`: validate, then set the defaults. -/
def LoadConfig (config : Config) : Except Bytes Config :=
  match config.validate with
  | some err => .error err
  | none => .ok config.setDefaults

/-! ## `pkg/connection/establisher.go` -/

namespace Connection

/-- The calls an establisher makes, in program order. -/
inductive Call
  /-- The call `tls.DialWithDialer` with the dialer timeout in seconds, the
  address and the TLS server name. -/
  | tlsDial (timeout : Int) (address serverName : Bytes)
  /-- The call `net.DialTimeout("tcp", address, timeout)`, timeout in seconds. -/
  | dialTimeout (address : Bytes) (timeout : Int)
  /-- The call `EstablishWSTunnel(conn, payload, targetHost, targetPort, host)`. -/
  | EstablishWSTunnel (payload targetHost targetPort host : Bytes)
  deriving DecidableEq, Repr

/-- The method `DirectEstablisher.Establish`; `dialOk` is whether the dial
succeeds. The masked handshake is made only for a non-empty payload. -/
def DirectEstablisher.Establish (dialOk : Bool) (cfg : Config) : List Call :=
  let sshPort := Itoa cfg.SSH.Port
  let address := JoinHostPort cfg.SSH.Host sshPort
  let dial :=
    if cfg.SSH.Port = 443 then Call.tlsDial cfg.ConnectionTimeout address cfg.SSH.Host
    else Call.dialTimeout address cfg.ConnectionTimeout
  dial ::
    (if !dialOk then []
     else if cfg.HTTPPayload ≠ [] then
       [Call.EstablishWSTunnel cfg.HTTPPayload cfg.SSH.Host sshPort cfg.SSH.Host]
     else [])

/-- The method `ProxyEstablisher.Establish`; `dialOk` is whether the dial
succeeds. The masked handshake is made whatever the payload. -/
def ProxyEstablisher.Establish (dialOk : Bool) (cfg : Config) : List Call :=
  let proxyAddress := JoinHostPort cfg.ProxyHost cfg.ProxyPort
  let sshPort := Itoa cfg.SSH.Port
  let dial :=
    if cfg.ProxyPort = str "443" then Call.tlsDial cfg.ConnectionTimeout proxyAddress cfg.ProxyHost
    else Call.dialTimeout proxyAddress cfg.ConnectionTimeout
  dial ::
    (if !dialOk then []
     else [Call.EstablishWSTunnel cfg.HTTPPayload cfg.SSH.Host sshPort cfg.SSH.Host])

/-- The function `GetEstablisher`: the `Establish` method of the establisher
for the mode; `none` is the error return for an unsupported mode. -/
def GetEstablisher (mode : Bytes) : Option (Bool → Config → List Call) :=
  if mode = str "direct" then some DirectEstablisher.Establish
  else if mode = str "proxy" then some ProxyEstablisher.Establish
  else none

end Connection

/-! ## Auxiliary facts -/

theorem mem_formatBits (base : Nat) (P : Nat → Prop) (hP : ∀ d, P (digitByte (d % base))) :
    ∀ (fuel n : Nat) (acc : Bytes), (∀ x ∈ acc, P x) → ∀ x ∈ formatBits base fuel n acc, P x := by
  intro fuel
  induction fuel with
  | zero => intro n acc hacc x hx; exact hacc x (by simpa [formatBits] using hx)
  | succ k ih =>
    intro n acc hacc x hx
    have hcons : ∀ y ∈ digitByte (n % base) :: acc, P y := by
      intro y hy
      rcases List.mem_cons.mp hy with h | h
      · rw [h]; exact hP n
      · exact hacc y h
    unfold formatBits at hx
    split at hx
    · exact hcons x hx
    · exact ih _ _ hcons x hx

theorem colon_not_mem_decimal (n : Nat) : 58 ∉ decimal n := by
  intro h
  have key := mem_formatBits 10 (fun x => x ≠ 58)
    (by intro d; have : d % 10 < 10 := Nat.mod_lt _ (by decide)
        unfold digitByte; split <;> omega)
    (n + 1) n [] (by simp) 58 h
  exact key rfl

theorem colon_not_mem_hex (n : Nat) : 58 ∉ hex n := by
  intro h
  have key := mem_formatBits 16 (fun x => x ≠ 58)
    (by intro d; have : d % 16 < 16 := Nat.mod_lt _ (by decide)
        unfold digitByte; split <;> omega)
    (n + 1) n [] (by simp) 58 h
  exact key rfl

theorem ReadFull_append (xs ys : Bytes) : ReadFull xs.length (xs ++ ys) = some (xs, ys) := by
  simp [ReadFull]

theorem ReadFull_short (n : Nat) (stream : Bytes) (h : stream.length < n) :
    ReadFull n stream = none := by
  simp [ReadFull, h]

theorem Uint16_pair (p0 p1 : Nat) (h0 : p0 < 256) (h1 : p1 < 256) :
    Uint16 [p0, p1] = 256 * p0 + p1 := by
  have hor : 2 ^ 8 * p0 + p1 = 2 ^ 8 * p0 ||| p1 := Nat.mul_add_lt_is_or (by simpa using h1) p0
  have hsh : p0 <<< 8 = 2 ^ 8 * p0 := by rw [Nat.shiftLeft_eq, Nat.mul_comm]
  simp only [Uint16, List.getD_cons_zero, List.getD_cons_succ]
  rw [Nat.lor_comm, hsh, ← hor]
  omega

theorem Itoa_natCast (n : Nat) : Itoa (n : Int) = decimal n := by
  have h : ¬ ((n : Int) < 0) := by omega
  simp [Itoa, h]

theorem JoinHostPort_plain (host port : Bytes) (h : 58 ∉ host) :
    JoinHostPort host port = host ++ str ":" ++ port := by
  simp [JoinHostPort, h]

theorem JoinHostPort_colon (host port : Bytes) (h : 58 ∈ host) :
    JoinHostPort host port = str "[" ++ host ++ str "]:" ++ port := by
  simp [JoinHostPort, h]

/-! ### Decimal rendering and parsing -/

theorem formatBits_ne_nil (base fuel n : Nat) (acc : Bytes) :
    formatBits base (fuel + 1) n acc ≠ [] := by
  induction fuel generalizing n acc with
  | zero =>
    unfold formatBits
    split
    · simp
    · simp [formatBits]
  | succ k ih =>
    unfold formatBits
    split
    · simp
    · exact ih _ _

theorem decimal_ne_nil (n : Nat) : decimal n ≠ [] := formatBits_ne_nil 10 n n []

theorem mem_decimal (n x : Nat) (hx : x ∈ decimal n) : 48 ≤ x ∧ x ≤ 57 :=
  mem_formatBits 10 (fun x => 48 ≤ x ∧ x ≤ 57)
    (by intro d; have : d % 10 < 10 := Nat.mod_lt _ (by decide)
        unfold digitByte; split <;> omega)
    (n + 1) n [] (by simp) x hx

theorem digitsValue_eq (ds : Bytes) : digitsValue ds = ds.foldl digitStep (some 0) := rfl

theorem digitStep_digit (a d : Nat) (hd : d < 10) :
    digitStep (some a) (digitByte d) = some (a * 10 + d) := by
  have h1 : digitByte d = 48 + d := by simp [digitByte, hd]
  have h2 : 48 ≤ 48 + d ∧ 48 + d ≤ 57 := by omega
  simp [digitStep, h1, h2]

theorem foldl_formatBits (fuel n : Nat) (acc : Bytes) (hfuel : n < fuel) :
    (formatBits 10 fuel n acc).foldl digitStep (some 0) = acc.foldl digitStep (some n) := by
  induction fuel generalizing n acc with
  | zero => omega
  | succ k ih =>
    have hmod : n % 10 < 10 := Nat.mod_lt _ (by decide)
    unfold formatBits
    split
    · rename_i hsmall
      have hn : n % 10 = n := by omega
      rw [List.foldl_cons, digitStep_digit 0 _ hmod, hn]
      simp
    · rename_i hbig
      have hlt : n / 10 < k := by omega
      rw [ih (n / 10) _ hlt, List.foldl_cons, digitStep_digit _ _ hmod]
      have hn : n / 10 * 10 + n % 10 = n := by omega
      rw [hn]

/-- The decimal rendering reads back as the number: the fuel of `decimal`
suffices for every digit. -/
theorem digitsValue_decimal (n : Nat) : digitsValue (decimal n) = some n := by
  rw [digitsValue_eq, decimal, foldl_formatBits (n + 1) n [] (Nat.lt_succ_self n)]
  rfl

theorem Atoi_decimal (n : Nat) (hn : n < 2 ^ 63) : Atoi (decimal n) = some (n : Int) := by
  have hne := decimal_ne_nil n
  have hval := digitsValue_decimal n
  have hmem := mem_decimal n
  unfold Atoi
  cases hdec : decimal n with
  | nil => exact absurd hdec hne
  | cons c t =>
    rw [hdec] at hval hmem
    have hc := hmem c (List.mem_cons_self c t)
    have h43 : c ≠ 43 := by omega
    have h45 : c ≠ 45 := by omega
    have hsigned : splitSign (c :: t) = (false, c :: t) := by
      unfold splitSign
      split
      · rename_i heq; rw [List.cons.injEq] at heq; exact absurd heq.1 h43
      · rename_i heq; rw [List.cons.injEq] at heq; exact absurd heq.1 h45
      · rfl
    simp only [hsigned, hval]
    have hn2 : n < 9223372036854775808 := by simpa using hn
    simp [hn2]

/-! ### Splitting `host:port` -/

theorem lastIndexByte_absent (s : Bytes) (c : Nat) (h : c ∉ s) : lastIndexByte s c = none := by
  induction s with
  | nil => rfl
  | cons x rest ih =>
    rw [List.mem_cons, not_or] at h
    have hx : ¬ x = c := fun e => h.1 e.symm
    simp [lastIndexByte, ih h.2, hx]

theorem lastIndexByte_append (host port : Bytes) (c : Nat) (h : c ∉ port) :
    lastIndexByte (host ++ c :: port) c = some host.length := by
  induction host with
  | nil => simp [lastIndexByte, lastIndexByte_absent port c h]
  | cons x rest ih => simp [lastIndexByte, ih]

/-- A target `host:port` whose host and port hold no colon and no bracket
splits into that host and that port. -/
theorem SplitHostPort_plain (host port : Bytes)
    (hh : 58 ∉ host ∧ 91 ∉ host ∧ 93 ∉ host) (hp : 58 ∉ port ∧ 91 ∉ port ∧ 93 ∉ port) :
    SplitHostPort (host ++ str ":" ++ port) = .ok (host, port) := by
  have hstr : host ++ str ":" ++ port = host ++ 58 :: port := by simp [str]
  have hhead : (host ++ 58 :: port).head? ≠ some 91 := by
    cases host with
    | nil => simp
    | cons x rest =>
      intro e
      have : x = 91 := by simpa using e
      exact hh.2.1 (by simp [this])
  have h91 : 91 ∉ host ++ 58 :: port := by simp [hh.2.1, hp.2.1]
  have h93 : 93 ∉ host ++ 58 :: port := by simp [hh.2.2, hp.2.2]
  rw [hstr]
  unfold SplitHostPort
  rw [lastIndexByte_append host port 58 hp.1]
  simp only [if_neg hhead, List.take_left, List.drop_zero, if_neg hh.1, if_neg h91, if_neg h93]
  simp

/-- A CONNECT target `host:P` with a plain host name and a decimal port is
dialed at exactly that `host:P`. -/
theorem HTTP.connect_plain_target (env : HTTP.Env) (req : HTTP.Request) (host : Bytes) (P : Nat)
    (hh : 58 ∉ host ∧ 91 ∉ host ∧ 93 ∉ host) (hP : P < 2 ^ 63)
    (htarget : req.Host = host ++ str ":" ++ decimal P) :
    ParseHostPort req.Host 443 = some (host, (P : Int)) ∧
    HTTP.handleConnect env req =
      Event.write (str "HTTP/1.1 200 Connection established\r\n\r\n") ::
        (if env.clientWriteOk then
          Event.dial (str "tcp") (host ++ str ":" ++ decimal P) ::
            (if env.dialOk then [Event.forwardData, Event.closeBackend] else [])
         else []) := by
  have hdigits : 58 ∉ decimal P ∧ 91 ∉ decimal P ∧ 93 ∉ decimal P := by
    refine ⟨?_, ?_, ?_⟩ <;> intro hmem <;> have := mem_decimal P _ hmem <;> omega
  have hhttps : decimal P ≠ str "https" := by
    intro e
    have hmem : 104 ∈ decimal P := by rw [e]; decide
    have := mem_decimal P _ hmem
    omega
  have hhttp : decimal P ≠ str "http" := by
    intro e
    have hmem : 104 ∈ decimal P := by rw [e]; decide
    have := mem_decimal P _ hmem
    omega
  have hparse : ParseHostPort req.Host 443 = some (host, (P : Int)) := by
    rw [htarget]
    unfold ParseHostPort
    rw [SplitHostPort_plain host (decimal P) hh hdigits]
    simp [hhttps, hhttp, Atoi_decimal P hP]
  refine ⟨hparse, ?_⟩
  simp [HTTP.handleConnect, hparse, OpenSSHChannel, Itoa_natCast, JoinHostPort_plain _ _ hh.1]

/-- Renderings of a few numbers. -/
theorem format_samples :
    decimal 0 = str "0" ∧ decimal 443 = str "443" ∧ decimal 65535 = str "65535" ∧
    hex 0 = str "0" ∧ hex 3512 = str "db8" ∧ hex 65535 = str "ffff" ∧
    Itoa (-1) = str "-1" ∧ Atoi (str "080") = some 80 ∧ Atoi (str "") = none ∧
    Atoi (str "8o") = none := by
  decide

/-! ## SOCKS5 -/

/-- After a complete method negotiation and a complete request header with
`cmd = 1`, the handler has written `{5,0}` and continues with the address. -/
theorem SOCKS5.handler_connect (dialOk : Bool) (ms : Bytes) (v r atyp : Nat) (tail : Bytes) :
    SOCKS5.handler dialOk ([5, ms.length] ++ ms ++ [v, 1, r, atyp] ++ tail) =
      Event.write [5, 0] ::
        (match SOCKS5.decodeHost atyp tail with
         | .error aborted => aborted
         | .ok (host, stream) =>
           match ReadFull 2 stream with
           | none => SOCKS5.sendError 1
           | some (portBytes, _) =>
             SOCKS5.sendSuccess ++ OpenSSHChannel dialOk host (Uint16 portBytes : Nat)) := by
  have hread : ReadFull ms.length (ms ++ (v :: 1 :: r :: atyp :: tail)) =
      some (ms, v :: 1 :: r :: atyp :: tail) := ReadFull_append _ _
  have hhdr : ReadFull 4 (v :: 1 :: r :: atyp :: tail) = some ([v, 1, r, atyp], tail) := by
    simp [ReadFull]
  simp only [SOCKS5.handler, SOCKS5.handleSOCKS5, read1, List.cons_append, List.nil_append,
    List.append_assoc, hread, hhdr]
  simp

/-- C1: on a client stream `5, n, m_1..m_n, v, 1, r, 1, a, b, c, d, p0, p1` the
SOCKS5 handler writes `{5,0}`, then the success reply, then dials once, network
`tcp`, address `a.b.c.d:P` in decimal with `P = 256*p0 + p1`. -/
theorem socks5_connect_ipv4 (dialOk : Bool) (n : Nat) (ms : Bytes) (v r a b c d p0 p1 : Nat)
    (rest : Bytes) (hn : n = ms.length) (hp0 : p0 < 256) (hp1 : p1 < 256) :
    SOCKS5.handler dialOk ([5, n] ++ ms ++ [v, 1, r, 1, a, b, c, d, p0, p1] ++ rest) =
      [Event.write [5, 0], Event.write [5, 0, 0, 1, 0, 0, 0, 0, 0, 0],
        Event.dial (str "tcp")
          (decimal a ++ str "." ++ decimal b ++ str "." ++ decimal c ++ str "." ++ decimal d
            ++ str ":" ++ decimal (256 * p0 + p1))]
        ++ (if dialOk then [Event.forwardData, Event.closeBackend] else []) := by
  subst hn
  have hhost : 58 ∉ decimal a ++ str "." ++ decimal b ++ str "." ++ decimal c ++ str "."
      ++ decimal d := by
    simp [colon_not_mem_decimal, str]
  have hstream : [5, ms.length] ++ ms ++ [v, 1, r, 1, a, b, c, d, p0, p1] ++ rest =
      [5, ms.length] ++ ms ++ [v, 1, r, 1] ++ (a :: b :: c :: d :: p0 :: p1 :: rest) := by simp
  have hdec : SOCKS5.decodeHost 1 (a :: b :: c :: d :: p0 :: p1 :: rest) =
      .ok (decimal a ++ str "." ++ decimal b ++ str "." ++ decimal c ++ str "." ++ decimal d,
        p0 :: p1 :: rest) := by
    simp [SOCKS5.decodeHost, ReadFull]
  have hport : ReadFull 2 (p0 :: p1 :: rest) = some ([p0, p1], rest) := by simp [ReadFull]
  rw [hstream, SOCKS5.handler_connect, hdec]
  simp only [hport, Uint16_pair p0 p1 hp0 hp1, OpenSSHChannel, Itoa_natCast,
    JoinHostPort_plain _ _ hhost, SOCKS5.sendSuccess]
  simp

/-- Witness for C1: CONNECT to 93.184.216.34:80 dials `93.184.216.34:80`. -/
theorem socks5_connect_ipv4_witness :
    SOCKS5.handler true [5, 1, 0, 5, 1, 0, 1, 93, 184, 216, 34, 0, 80] =
      [Event.write [5, 0], Event.write [5, 0, 0, 1, 0, 0, 0, 0, 0, 0],
        Event.dial (str "tcp") (str "93.184.216.34:80"),
        Event.forwardData, Event.closeBackend] :=
  socks5_connect_ipv4 true 1 [0] 5 0 93 184 216 34 0 80 [] rfl (by decide) (by decide)

/-- The decoded IPv6 host already carries one pair of brackets and its colons,
so `OpenSSHChannel` (through `net.JoinHostPort`) adds a second pair: every
well-formed CONNECT with address type 4 dials `[[h1:..:h8]]:P`. -/
theorem SOCKS5.connect_ipv6_address (dialOk : Bool) (ms : Bytes) (v r : Nat)
    (a0 a1 a2 a3 a4 a5 a6 a7 a8 a9 a10 a11 a12 a13 a14 a15 p0 p1 : Nat) (rest : Bytes)
    (hp0 : p0 < 256) (hp1 : p1 < 256) :
    SOCKS5.handler dialOk ([5, ms.length] ++ ms ++ [v, 1, r, 4]
        ++ ([a0, a1, a2, a3, a4, a5, a6, a7, a8, a9, a10, a11, a12, a13, a14, a15, p0, p1]
        ++ rest)) =
      [Event.write [5, 0], Event.write [5, 0, 0, 1, 0, 0, 0, 0, 0, 0],
        Event.dial (str "tcp")
          (str "[[" ++ hex (Uint16 [a0, a1]) ++ str ":" ++ hex (Uint16 [a2, a3]) ++ str ":"
            ++ hex (Uint16 [a4, a5]) ++ str ":" ++ hex (Uint16 [a6, a7]) ++ str ":"
            ++ hex (Uint16 [a8, a9]) ++ str ":" ++ hex (Uint16 [a10, a11]) ++ str ":"
            ++ hex (Uint16 [a12, a13]) ++ str ":" ++ hex (Uint16 [a14, a15])
            ++ str "]]:" ++ decimal (256 * p0 + p1))]
        ++ (if dialOk then [Event.forwardData, Event.closeBackend] else []) := by
  have hdec : SOCKS5.decodeHost 4
      ([a0, a1, a2, a3, a4, a5, a6, a7, a8, a9, a10, a11, a12, a13, a14, a15, p0, p1] ++ rest) =
      .ok (str "[" ++ hex (Uint16 [a0, a1]) ++ str ":" ++ hex (Uint16 [a2, a3]) ++ str ":"
            ++ hex (Uint16 [a4, a5]) ++ str ":" ++ hex (Uint16 [a6, a7]) ++ str ":"
            ++ hex (Uint16 [a8, a9]) ++ str ":" ++ hex (Uint16 [a10, a11]) ++ str ":"
            ++ hex (Uint16 [a12, a13]) ++ str ":" ++ hex (Uint16 [a14, a15]) ++ str "]",
        p0 :: p1 :: rest) := by
    simp [SOCKS5.decodeHost, ReadFull]
  have hport : ReadFull 2 (p0 :: p1 :: rest) = some ([p0, p1], rest) := by simp [ReadFull]
  have hhost : 58 ∈ str "[" ++ hex (Uint16 [a0, a1]) ++ str ":" ++ hex (Uint16 [a2, a3])
      ++ str ":" ++ hex (Uint16 [a4, a5]) ++ str ":" ++ hex (Uint16 [a6, a7]) ++ str ":"
      ++ hex (Uint16 [a8, a9]) ++ str ":" ++ hex (Uint16 [a10, a11]) ++ str ":"
      ++ hex (Uint16 [a12, a13]) ++ str ":" ++ hex (Uint16 [a14, a15]) ++ str "]" := by
    simp [str]
  rw [SOCKS5.handler_connect, hdec]
  simp only [hport, Uint16_pair p0 p1 hp0 hp1, OpenSSHChannel, Itoa_natCast,
    JoinHostPort_colon _ _ hhost, SOCKS5.sendSuccess]
  simp [str]

/-- C2 (evaluation at the failing input): a CONNECT to the IPv6 address
`2001:db8::1`, port 443, dials the address `[[2001:db8:0:0:0:0:0:1]]:443`,
whose host is enclosed in two pairs of square brackets. -/
theorem socks5_connect_ipv6_double_brackets :
    SOCKS5.handler true
        [5, 1, 0, 5, 1, 0, 4, 32, 1, 13, 184, 0, 0, 0, 0, 0, 0, 0, 0, 0, 0, 0, 1, 1, 187] =
      [Event.write [5, 0], Event.write [5, 0, 0, 1, 0, 0, 0, 0, 0, 0],
        Event.dial (str "tcp") (str "[[2001:db8:0:0:0:0:0:1]]:443"),
        Event.forwardData, Event.closeBackend] := by
  decide

/-- C3 (counterexample): the domain `::1` (3 bytes) with port 80 is not dialed
as `::1:80`; the address is `[::1]:80`. -/
theorem socks5_connect_domain_colon_bracketed :
    SOCKS5.handler true [5, 1, 0, 5, 1, 0, 3, 3, 58, 58, 49, 0, 80] =
        [Event.write [5, 0], Event.write [5, 0, 0, 1, 0, 0, 0, 0, 0, 0],
          Event.dial (str "tcp") (str "[::1]:80"), Event.forwardData, Event.closeBackend]
      ∧ str "[::1]:80" ≠ [58, 58, 49] ++ str ":" ++ decimal (256 * 0 + 80) := by
  decide

/-- C3 (amended): on a well-formed CONNECT with address type 3, length byte `N`,
domain bytes `D` and port bytes `p0, p1`, the handler dials exactly once; the
address is `D`, unchanged, followed by `:` and the decimal port `256*p0 + p1`
when `D` holds no colon byte, and `[D]:port` when it holds one. -/
theorem socks5_connect_domain (dialOk : Bool) (n : Nat) (ms : Bytes) (v r N : Nat) (D : Bytes)
    (p0 p1 : Nat) (rest : Bytes) (hn : n = ms.length) (hN : N = D.length)
    (hp0 : p0 < 256) (hp1 : p1 < 256) :
    SOCKS5.handler dialOk ([5, n] ++ ms ++ [v, 1, r, 3, N] ++ D ++ [p0, p1] ++ rest) =
      [Event.write [5, 0], Event.write [5, 0, 0, 1, 0, 0, 0, 0, 0, 0],
        Event.dial (str "tcp")
          (if 58 ∈ D then str "[" ++ D ++ str "]:" ++ decimal (256 * p0 + p1)
           else D ++ str ":" ++ decimal (256 * p0 + p1))]
        ++ (if dialOk then [Event.forwardData, Event.closeBackend] else []) := by
  subst hn hN
  have hstream : [5, ms.length] ++ ms ++ [v, 1, r, 3, D.length] ++ D ++ [p0, p1] ++ rest =
      [5, ms.length] ++ ms ++ [v, 1, r, 3] ++ (D.length :: (D ++ (p0 :: p1 :: rest))) := by simp
  have hdec : SOCKS5.decodeHost 3 (D.length :: (D ++ (p0 :: p1 :: rest))) =
      .ok (D, p0 :: p1 :: rest) := by
    simp [SOCKS5.decodeHost, read1, ReadFull_append]
  have hport : ReadFull 2 (p0 :: p1 :: rest) = some ([p0, p1], rest) := by simp [ReadFull]
  rw [hstream, SOCKS5.handler_connect, hdec]
  simp only [hport, Uint16_pair p0 p1 hp0 hp1, OpenSSHChannel, Itoa_natCast, JoinHostPort,
    SOCKS5.sendSuccess]
  simp

/-- Witness for C3 (amended): CONNECT to the domain `a.io`, port 443. -/
theorem socks5_connect_domain_witness :
    SOCKS5.handler true [5, 1, 0, 5, 1, 0, 3, 4, 97, 46, 105, 111, 1, 187] =
      [Event.write [5, 0], Event.write [5, 0, 0, 1, 0, 0, 0, 0, 0, 0],
        Event.dial (str "tcp") (str "a.io:443"), Event.forwardData, Event.closeBackend] :=
  socks5_connect_domain true 1 [0] 5 0 4 [97, 46, 105, 111] 1 187 [] rfl rfl
    (by decide) (by decide)

/-- C4: after a complete method negotiation and a complete request header
`v, cmd, r, atyp`, a command other than 1 is answered with exactly
`{5,7,0,1,0,0,0,0,0,0}`, and command 1 with an address type other than 1, 3, 4
with exactly `{5,8,0,1,0,0,0,0,0,0}`; these two writes (the method reply `{5,0}`
and the error reply) are the whole trace, so there is no success reply and no
`Dial`. -/
theorem socks5_unsupported_request (dialOk : Bool) (n : Nat) (ms : Bytes)
    (v cmd r atyp : Nat) (rest : Bytes) (hn : n = ms.length) :
    (cmd ≠ 1 →
      SOCKS5.handler dialOk ([5, n] ++ ms ++ [v, cmd, r, atyp] ++ rest) =
        [Event.write [5, 0], Event.write [5, 7, 0, 1, 0, 0, 0, 0, 0, 0]]) ∧
    (cmd = 1 → atyp ≠ 1 → atyp ≠ 3 → atyp ≠ 4 →
      SOCKS5.handler dialOk ([5, n] ++ ms ++ [v, cmd, r, atyp] ++ rest) =
        [Event.write [5, 0], Event.write [5, 8, 0, 1, 0, 0, 0, 0, 0, 0]]) := by
  subst hn
  constructor
  · intro hcmd
    have hread : ReadFull ms.length (ms ++ (v :: cmd :: r :: atyp :: rest)) =
        some (ms, v :: cmd :: r :: atyp :: rest) := ReadFull_append _ _
    have hhdr : ReadFull 4 (v :: cmd :: r :: atyp :: rest) = some ([v, cmd, r, atyp], rest) := by
      simp [ReadFull]
    simp only [SOCKS5.handler, SOCKS5.handleSOCKS5, read1, List.cons_append, List.nil_append,
      List.append_assoc, hread, hhdr]
    simp [hcmd, SOCKS5.sendError]
  · intro hcmd h1 h3 h4
    subst hcmd
    rw [SOCKS5.handler_connect]
    simp [SOCKS5.decodeHost, h1, h3, h4, SOCKS5.sendError]

/-- Witness for C4: a BIND request (command 2) gets error 7, and a CONNECT with
address type 5 gets error 8. -/
theorem socks5_unsupported_request_witness :
    SOCKS5.handler true [5, 1, 0, 5, 2, 0, 1, 127, 0, 0, 1, 0, 80] =
        [Event.write [5, 0], Event.write [5, 7, 0, 1, 0, 0, 0, 0, 0, 0]] ∧
    SOCKS5.handler true [5, 1, 0, 5, 1, 0, 5, 127, 0, 0, 1, 0, 80] =
        [Event.write [5, 0], Event.write [5, 8, 0, 1, 0, 0, 0, 0, 0, 0]] :=
  ⟨(socks5_unsupported_request true 1 [0] 5 2 0 1 [127, 0, 0, 1, 0, 80] rfl).1 (by decide),
   (socks5_unsupported_request true 1 [0] 5 1 0 5 [127, 0, 0, 1, 0, 80] rfl).2 rfl
      (by decide) (by decide) (by decide)⟩

/-- C5: after a complete request header with `cmd = 1` and `atyp` in {1, 3, 4},
a stream that ends before the address (for a domain: the length byte and the
domain bytes) and the 2 port bytes are complete is answered with exactly
`{5,1,0,1,0,0,0,0,0,0}`; the method reply and this error reply are the whole
trace, so there is no success reply and no `Dial`. -/
theorem socks5_truncated_request (dialOk : Bool) (n : Nat) (ms : Bytes) (v r atyp : Nat)
    (tail : Bytes) (hn : n = ms.length)
    (hshort : (atyp = 1 ∧ tail.length < 4 + 2) ∨ (atyp = 4 ∧ tail.length < 16 + 2) ∨
      (atyp = 3 ∧ tail = []) ∨ (atyp = 3 ∧ ∃ N t, tail = N :: t ∧ t.length < N + 2)) :
    SOCKS5.handler dialOk ([5, n] ++ ms ++ [v, 1, r, atyp] ++ tail) =
      [Event.write [5, 0], Event.write [5, 1, 0, 1, 0, 0, 0, 0, 0, 0]] := by
  subst hn
  rw [SOCKS5.handler_connect]
  rcases hshort with ⟨h, hlen⟩ | ⟨h, hlen⟩ | ⟨h, hnil⟩ | ⟨h, N, t, ht, hlen⟩
  · subst h
    by_cases h4 : 4 ≤ tail.length
    · have hp : ReadFull 2 (List.drop 4 tail) = none :=
        ReadFull_short _ _ (by rw [List.length_drop]; omega)
      have hf : ReadFull 4 tail = some (tail.take 4, tail.drop 4) := by simp [ReadFull, h4]
      simp [SOCKS5.decodeHost, hf, hp, SOCKS5.sendError]
    · simp [SOCKS5.decodeHost, ReadFull, h4, SOCKS5.sendError]
  · subst h
    by_cases h16 : 16 ≤ tail.length
    · have hp : ReadFull 2 (List.drop 16 tail) = none :=
        ReadFull_short _ _ (by rw [List.length_drop]; omega)
      have hf : ReadFull 16 tail = some (tail.take 16, tail.drop 16) := by simp [ReadFull, h16]
      simp [SOCKS5.decodeHost, hf, hp, SOCKS5.sendError]
    · simp [SOCKS5.decodeHost, ReadFull, h16, SOCKS5.sendError]
  · subst h hnil
    simp [SOCKS5.decodeHost, read1, SOCKS5.sendError]
  · subst h ht
    by_cases hN : N ≤ t.length
    · have hp : ReadFull 2 (List.drop N t) = none :=
        ReadFull_short _ _ (by rw [List.length_drop]; omega)
      have hf : ReadFull N t = some (t.take N, t.drop N) := by simp [ReadFull, hN]
      simp [SOCKS5.decodeHost, read1, hf, hp, SOCKS5.sendError]
    · simp [SOCKS5.decodeHost, read1, ReadFull, hN, SOCKS5.sendError]

/-- Witness for C5: an IPv4 CONNECT cut after three address bytes, and a
domain CONNECT for the 4-byte domain `a.io` cut after its first port byte. -/
theorem socks5_truncated_request_witness :
    SOCKS5.handler true [5, 1, 0, 5, 1, 0, 1, 127, 0, 0] =
        [Event.write [5, 0], Event.write [5, 1, 0, 1, 0, 0, 0, 0, 0, 0]] ∧
    SOCKS5.handler true [5, 1, 0, 5, 1, 0, 3, 4, 97, 46, 105, 111, 1] =
        [Event.write [5, 0], Event.write [5, 1, 0, 1, 0, 0, 0, 0, 0, 0]] :=
  ⟨socks5_truncated_request true 1 [0] 5 0 1 [127, 0, 0] rfl (Or.inl ⟨rfl, by decide⟩),
   socks5_truncated_request true 1 [0] 5 0 3 [4, 97, 46, 105, 111, 1] rfl
    (Or.inr (Or.inr (Or.inr ⟨rfl, 4, [97, 46, 105, 111, 1], rfl, by decide⟩)))⟩

/-! ## HTTP -/

/-- C7: for a CONNECT request whose target parses, the first call of
`handleConnect` is the write of `HTTP/1.1 200 Connection established` followed
by an empty line; no other write to the client follows (relayed backend bytes
are the forwarder's), and the backend `Dial`, made whenever that write
succeeded, comes after it, whatever the outcome of the dial. -/
theorem http_connect_reply_first (env : HTTP.Env) (req : HTTP.Request) (host : Bytes)
    (port : Int) (htarget : ParseHostPort req.Host 443 = some (host, port)) :
    ∃ rest : List Event,
      HTTP.handleConnect env req =
        Event.write (str "HTTP/1.1 200 Connection established\r\n\r\n") :: rest ∧
      (∀ data, Event.write data ∉ rest) ∧
      (env.clientWriteOk = true →
        Event.dial (str "tcp") (JoinHostPort host (Itoa port)) ∈ rest) := by
  refine ⟨if env.clientWriteOk then OpenSSHChannel env.dialOk host port else [], ?_, ?_, ?_⟩
  · simp [HTTP.handleConnect, htarget]
  · intro data
    cases env.clientWriteOk <;> cases env.dialOk <;> simp [OpenSSHChannel]
  · intro hw
    simp [hw, OpenSSHChannel]

/-- Witness for C7: `CONNECT example.com:8443` with a failing dial. -/
theorem http_connect_reply_first_witness :
    ∃ rest : List Event,
      HTTP.handleConnect ⟨true, false, true, true, []⟩
          ⟨str "CONNECT", str "example.com:8443", ⟨false, none, []⟩, str "HTTP/1.1", [], false⟩ =
        Event.write (str "HTTP/1.1 200 Connection established\r\n\r\n") :: rest ∧
      (∀ data, Event.write data ∉ rest) ∧
      (true = true →
        Event.dial (str "tcp") (JoinHostPort (str "example.com") (Itoa 8443)) ∈ rest) :=
  http_connect_reply_first ⟨true, false, true, true, []⟩
    ⟨str "CONNECT", str "example.com:8443", ⟨false, none, []⟩, str "HTTP/1.1", [], false⟩
    (str "example.com") 8443 (by decide)

/-- C8 (evaluation at the failing input): the CONNECT target `[::1]`, a
bracketed IPv6 literal without a port, is dialed at the address `[[::1]]:443`:
`ParseHostPort` hands the target back with its brackets and
`net.JoinHostPort` brackets it again. -/
theorem http_connect_bracketed_ipv6_no_port :
    ParseHostPort (str "[::1]") 443 = some (str "[::1]", 443) ∧
    HTTP.handleConnect ⟨true, true, true, true, []⟩
        ⟨str "CONNECT", str "[::1]", ⟨false, none, []⟩, str "HTTP/1.1", [], false⟩ =
      [Event.write (str "HTTP/1.1 200 Connection established\r\n\r\n"),
        Event.dial (str "tcp") (str "[[::1]]:443"), Event.forwardData, Event.closeBackend] := by
  decide

/-- C9 (counterexample): `CONNECT example.com:443` with a failing backend
dial; the client is sent the 200 reply and no 502 response. -/
theorem http_connect_dial_failure_no_502 :
    HTTP.handler ⟨true, false, true, true, []⟩
        (some ⟨str "CONNECT", str "example.com:443", ⟨false, none, []⟩, str "HTTP/1.1", [],
          false⟩) =
      [Event.write (str "HTTP/1.1 200 Connection established\r\n\r\n"),
        Event.dial (str "tcp") (str "example.com:443")] ∧
    Event.write (str "HTTP/1.1 502 Bad Gateway\r\nContent-Length: 0\r\nConnection: close\r\n\r\n")
      ∉ HTTP.handler ⟨true, false, true, true, []⟩
        (some ⟨str "CONNECT", str "example.com:443", ⟨false, none, []⟩, str "HTTP/1.1", [],
          false⟩) := by
  decide

/-- C9 (amended): when the backend dial fails, a parsed request of any method
other than CONNECT whose target resolves is answered with the synthetic
`502 Bad Gateway` response, the only write to the client; a CONNECT request
has been sent the 200 reply before the dial and is sent nothing after it. -/
theorem http_dial_failure (env : HTTP.Env) (req : HTTP.Request) (hdial : env.dialOk = false) :
    (∀ host port path, req.Method ≠ str "CONNECT" →
      HTTP.parseTarget req = some (host, port, path) →
      HTTP.handler env (some req) =
        [Event.dial (str "tcp") (JoinHostPort host (Itoa port)),
          Event.write
            (str "HTTP/1.1 502 Bad Gateway\r\nContent-Length: 0\r\nConnection: close\r\n\r\n")]) ∧
    (∀ host port, req.Method = str "CONNECT" →
      ParseHostPort req.Host 443 = some (host, port) → env.clientWriteOk = true →
      HTTP.handler env (some req) =
        [Event.write (str "HTTP/1.1 200 Connection established\r\n\r\n"),
          Event.dial (str "tcp") (JoinHostPort host (Itoa port))]) := by
  have h502 : HTTP.sendError 502 (str "Bad Gateway") =
      [Event.write
        (str "HTTP/1.1 502 Bad Gateway\r\nContent-Length: 0\r\nConnection: close\r\n\r\n")] := by
    decide
  constructor
  · intro host port path hm ht
    simp [HTTP.handler, hm, HTTP.handleRequest, ht, hdial, h502]
  · intro host port hm ht hw
    simp [HTTP.handler, hm, HTTP.handleConnect, ht, hw, hdial, OpenSSHChannel]

/-- Witness for C9 (amended): `GET http://example.com/` and
`CONNECT example.com:443`, each with a failing dial. -/
theorem http_dial_failure_witness :
    HTTP.handler ⟨true, false, true, true, []⟩
        (some ⟨str "GET", str "example.com",
          ⟨true, some ⟨str "example.com", [], str "http", str "/"⟩, str "/"⟩,
          str "HTTP/1.1", [], false⟩) =
      [Event.dial (str "tcp") (JoinHostPort (str "example.com") (Itoa 80)),
        Event.write
          (str "HTTP/1.1 502 Bad Gateway\r\nContent-Length: 0\r\nConnection: close\r\n\r\n")] ∧
    HTTP.handler ⟨true, false, true, true, []⟩
        (some ⟨str "CONNECT", str "example.com:443", ⟨false, none, []⟩, str "HTTP/1.1", [],
          false⟩) =
      [Event.write (str "HTTP/1.1 200 Connection established\r\n\r\n"),
        Event.dial (str "tcp") (JoinHostPort (str "example.com") (Itoa 443))] :=
  ⟨(http_dial_failure ⟨true, false, true, true, []⟩
      ⟨str "GET", str "example.com",
        ⟨true, some ⟨str "example.com", [], str "http", str "/"⟩, str "/"⟩,
        str "HTTP/1.1", [], false⟩ rfl).1 (str "example.com") 80 (str "/")
      (by decide) (by decide),
   (http_dial_failure ⟨true, false, true, true, []⟩
      ⟨str "CONNECT", str "example.com:443", ⟨false, none, []⟩, str "HTTP/1.1", [], false⟩
      rfl).2 (str "example.com") 443 rfl (by decide) rfl⟩

/-! ### Header forwarding -/

theorem HTTP.foldl_values (name : Bytes) (values : List Bytes) (builder : Bytes) :
    values.foldl (fun builder value => builder ++ (name ++ str ": " ++ value ++ str "\r\n"))
      builder =
    builder ++ (values.map (fun value => HTTP.fieldLine (name, value))).flatten := by
  induction values generalizing builder with
  | nil => simp
  | cons value rest ih =>
    rw [List.foldl_cons, ih, List.map_cons, List.flatten_cons, List.append_assoc]
    rfl

theorem HTTP.foldl_entries (entries : HTTP.Header) (builder : Bytes) :
    entries.foldl (fun builder entry =>
      if ToLower entry.1 = str "proxy-connection" then builder
      else entry.2.foldl (fun builder value =>
        builder ++ (entry.1 ++ str ": " ++ value ++ str "\r\n")) builder) builder =
    builder ++ (((HTTP.fieldsOf entries).filter
      (fun field => !HTTP.isProxyConnection field.1)).map HTTP.fieldLine).flatten := by
  induction entries generalizing builder with
  | nil => simp [HTTP.fieldsOf]
  | cons entry rest ih =>
    rw [List.foldl_cons, ih]
    have hcons : HTTP.fieldsOf (entry :: rest) =
        entry.2.map (fun value => (entry.1, value)) ++ HTTP.fieldsOf rest := by
      simp [HTTP.fieldsOf]
    rw [hcons, List.filter_append, List.map_append, List.flatten_append]
    by_cases hpc : ToLower entry.1 = str "proxy-connection"
    · have hnone : (entry.2.map (fun value => (entry.1, value))).filter
          (fun field => !HTTP.isProxyConnection field.1) = [] := by
        simp [List.filter_eq_nil_iff, HTTP.isProxyConnection, hpc]
      simp [hpc, hnone]
    · have hall : (entry.2.map (fun value => (entry.1, value))).filter
          (fun field => !HTTP.isProxyConnection field.1) =
          entry.2.map (fun value => (entry.1, value)) := by
        simp [List.filter_eq_self, HTTP.isProxyConnection, hpc]
      rw [if_neg hpc, hall, HTTP.foldl_values, List.map_map, List.append_assoc]
      rfl

/-- The bytes `forwardRequest` writes, in closed form. -/
theorem HTTP.requestHead_eq (entries : HTTP.Header) (req : HTTP.Request) (targetPath : Bytes) :
    HTTP.requestHead entries req targetPath =
      HTTP.requestLine req targetPath
        ++ (((HTTP.fieldsOf entries).filter
              (fun field => !HTTP.isProxyConnection field.1)).map HTTP.fieldLine).flatten
        ++ str "\r\n" := by
  unfold HTTP.requestHead
  simp only []
  rw [HTTP.foldl_entries]
  rfl

theorem HTTP.fieldsOf_cons (entry : Bytes × List Bytes) (rest : HTTP.Header) :
    HTTP.fieldsOf (entry :: rest) =
      entry.2.map (fun value => (entry.1, value)) ++ HTTP.fieldsOf rest := by
  simp [HTTP.fieldsOf]

theorem HTTP.Add_cons_same (k : Bytes) (vs : List Bytes) (rest : HTTP.Header) (value : Bytes) :
    HTTP.Header.Add ((k, vs) :: rest) k value = (k, vs ++ [value]) :: rest := by
  simp [HTTP.Header.Add]

theorem HTTP.Add_cons_other (k : Bytes) (vs : List Bytes) (rest : HTTP.Header)
    (key value : Bytes) (hk : ¬ k = key) :
    HTTP.Header.Add ((k, vs) :: rest) key value = (k, vs) :: HTTP.Header.Add rest key value := by
  simp [HTTP.Header.Add, hk]

theorem HTTP.fieldsOf_Add_perm (h : HTTP.Header) (key value : Bytes) :
    (HTTP.fieldsOf (HTTP.Header.Add h key value)).Perm (HTTP.fieldsOf h ++ [(key, value)]) := by
  induction h with
  | nil => simp [HTTP.Header.Add, HTTP.fieldsOf]
  | cons entry rest ih =>
    obtain ⟨k, vs⟩ := entry
    by_cases hk : k = key
    · subst hk
      rw [HTTP.Add_cons_same, HTTP.fieldsOf_cons, HTTP.fieldsOf_cons]
      simp only [List.map_append, List.map_cons, List.map_nil, List.append_assoc]
      exact List.Perm.append_left _ List.perm_append_comm
    · rw [HTTP.Add_cons_other _ _ _ _ _ hk, HTTP.fieldsOf_cons, HTTP.fieldsOf_cons,
        List.append_assoc]
      exact List.Perm.append_left _ ih

theorem HTTP.fieldsOf_foldl_perm (fields : List (Bytes × Bytes)) (h : HTTP.Header) :
    (HTTP.fieldsOf (fields.foldl (fun h field => HTTP.Header.Add h field.1 field.2) h)).Perm
      (HTTP.fieldsOf h ++ fields) := by
  induction fields generalizing h with
  | nil => simp
  | cons field rest ih =>
    rw [List.foldl_cons]
    refine (ih _).trans ?_
    have := (HTTP.fieldsOf_Add_perm h field.1 field.2).append_right rest
    simpa [List.append_assoc] using this

theorem HTTP.mem_keys_Add (h : HTTP.Header) (key value x : Bytes) :
    x ∈ (HTTP.Header.Add h key value).map Prod.fst ↔ x ∈ h.map Prod.fst ∨ x = key := by
  induction h with
  | nil => simp [HTTP.Header.Add]
  | cons entry rest ih =>
    obtain ⟨k, vs⟩ := entry
    by_cases hk : k = key
    · subst hk
      rw [HTTP.Add_cons_same]
      simp only [List.map_cons, List.mem_cons]
      tauto
    · rw [HTTP.Add_cons_other _ _ _ _ _ hk, List.map_cons, List.mem_cons, ih, List.map_cons,
        List.mem_cons]
      tauto

theorem HTTP.nodup_keys_Add (h : HTTP.Header) (key value : Bytes)
    (hnd : (h.map Prod.fst).Nodup) : ((HTTP.Header.Add h key value).map Prod.fst).Nodup := by
  induction h with
  | nil => simp [HTTP.Header.Add]
  | cons entry rest ih =>
    obtain ⟨k, vs⟩ := entry
    rw [List.map_cons, List.nodup_cons] at hnd
    by_cases hk : k = key
    · subst hk
      rw [HTTP.Add_cons_same, List.map_cons, List.nodup_cons]
      exact hnd
    · rw [HTTP.Add_cons_other _ _ _ _ _ hk, List.map_cons, List.nodup_cons]
      refine ⟨?_, ih hnd.2⟩
      intro hmem
      rcases (HTTP.mem_keys_Add rest key value k).mp hmem with h1 | h1
      · exact hnd.1 h1
      · exact hk h1

theorem HTTP.filter_values (k name : Bytes) (vs : List Bytes) :
    (vs.map (fun value => (k, value))).filter (fun field => decide (field.1 = name)) =
      if k = name then vs.map (fun value => (k, value)) else [] := by
  by_cases hk : k = name
  · simp [hk, List.filter_eq_self]
  · simp [hk, List.filter_eq_nil_iff]

theorem HTTP.filter_fieldsOf_absent (h : HTTP.Header) (name : Bytes)
    (habs : name ∉ h.map Prod.fst) :
    (HTTP.fieldsOf h).filter (fun field => decide (field.1 = name)) = [] := by
  induction h with
  | nil => simp [HTTP.fieldsOf]
  | cons entry rest ih =>
    obtain ⟨k, vs⟩ := entry
    rw [List.map_cons, List.mem_cons, not_or] at habs
    have hk : ¬ k = name := fun e => habs.1 e.symm
    rw [HTTP.fieldsOf_cons, List.filter_append, HTTP.filter_values, if_neg hk, ih habs.2]
    rfl

/-- In a map with distinct keys, the fields under the name of an entry are the
values of that entry. -/
theorem HTTP.filter_fieldsOf_entry (entries : HTTP.Header)
    (hnd : (entries.map Prod.fst).Nodup) (entry : Bytes × List Bytes) (hmem : entry ∈ entries) :
    (HTTP.fieldsOf entries).filter (fun field => decide (field.1 = entry.1)) =
      entry.2.map (fun value => (entry.1, value)) := by
  induction entries with
  | nil => exact absurd hmem (List.not_mem_nil _)
  | cons x rest ih =>
    rw [List.map_cons, List.nodup_cons] at hnd
    rw [HTTP.fieldsOf_cons, List.filter_append, HTTP.filter_values]
    rcases List.mem_cons.mp hmem with hx | hrest
    · subst hx
      rw [if_pos rfl, HTTP.filter_fieldsOf_absent rest entry.1 hnd.1, List.append_nil]
    · have hne : ¬ x.1 = entry.1 := by
        intro e
        exact hnd.1 (by rw [e]; exact List.mem_map_of_mem Prod.fst hrest)
      rw [if_neg hne, List.nil_append, ih hnd.2 hrest]

theorem HTTP.filter_fieldsOf_Add (h : HTTP.Header) (key value name : Bytes)
    (hnd : (h.map Prod.fst).Nodup) :
    (HTTP.fieldsOf (HTTP.Header.Add h key value)).filter (fun field => decide (field.1 = name)) =
      (HTTP.fieldsOf h).filter (fun field => decide (field.1 = name))
        ++ (if key = name then [(key, value)] else []) := by
  induction h with
  | nil =>
    by_cases hk : key = name <;> simp [HTTP.Header.Add, HTTP.fieldsOf, hk]
  | cons entry rest ih =>
    obtain ⟨k, vs⟩ := entry
    rw [List.map_cons, List.nodup_cons] at hnd
    by_cases hk : k = key
    · subst hk
      rw [HTTP.Add_cons_same, HTTP.fieldsOf_cons, HTTP.fieldsOf_cons, List.filter_append,
        List.filter_append, HTTP.filter_values, HTTP.filter_values]
      by_cases hn : k = name
      · subst hn
        rw [HTTP.filter_fieldsOf_absent rest k hnd.1]
        simp
      · simp [hn]
    · rw [HTTP.Add_cons_other _ _ _ _ _ hk, HTTP.fieldsOf_cons, HTTP.fieldsOf_cons,
        List.filter_append, List.filter_append, ih hnd.2, List.append_assoc]

theorem HTTP.foldl_Add_spec (fields : List (Bytes × Bytes)) (h : HTTP.Header) (name : Bytes)
    (hnd : (h.map Prod.fst).Nodup) :
    ((fields.foldl (fun h field => HTTP.Header.Add h field.1 field.2) h).map Prod.fst).Nodup ∧
    (HTTP.fieldsOf (fields.foldl (fun h field => HTTP.Header.Add h field.1 field.2) h)).filter
        (fun field => decide (field.1 = name)) =
      (HTTP.fieldsOf h).filter (fun field => decide (field.1 = name))
        ++ fields.filter (fun field => decide (field.1 = name)) := by
  induction fields generalizing h with
  | nil => simpa using hnd
  | cons field rest ih =>
    obtain ⟨fk, fv⟩ := field
    rw [List.foldl_cons]
    have hstep := ih (HTTP.Header.Add h fk fv) (HTTP.nodup_keys_Add h _ _ hnd)
    refine ⟨hstep.1, ?_⟩
    rw [hstep.2, HTTP.filter_fieldsOf_Add h fk fv name hnd, List.append_assoc]
    by_cases hk : fk = name <;> simp [List.filter_cons, hk]

/-- The keys of the map `ReadMIMEHeader` returns are pairwise distinct. -/
theorem HTTP.nodup_keys_ReadMIMEHeader (fields : List (Bytes × Bytes)) :
    ((HTTP.ReadMIMEHeader fields).map Prod.fst).Nodup :=
  (HTTP.foldl_Add_spec (HTTP.canonicalFields fields) [] [] (by simp)).1

/-- Under one name the map `ReadMIMEHeader` returns holds the values in the
order of the request. -/
theorem HTTP.filter_fieldsOf_ReadMIMEHeader (fields : List (Bytes × Bytes)) (name : Bytes) :
    (HTTP.fieldsOf (HTTP.ReadMIMEHeader fields)).filter (fun field => decide (field.1 = name)) =
      HTTP.fieldsNamed fields name := by
  have h := (HTTP.foldl_Add_spec (HTTP.canonicalFields fields) [] name (by simp)).2
  simpa [HTTP.ReadMIMEHeader, HTTP.fieldsOf, HTTP.fieldsNamed] using h

theorem HTTP.mem_keys_foldl_Add (fields : List (Bytes × Bytes)) (h : HTTP.Header) (x : Bytes) :
    x ∈ (fields.foldl (fun h field => HTTP.Header.Add h field.1 field.2) h).map Prod.fst ↔
      x ∈ h.map Prod.fst ∨ x ∈ fields.map Prod.fst := by
  induction fields generalizing h with
  | nil => simp
  | cons field rest ih =>
    rw [List.foldl_cons, ih, HTTP.mem_keys_Add, List.map_cons, List.mem_cons]
    tauto

/-- A key of the map `ReadMIMEHeader` returns is the name of a field. -/
theorem HTTP.fieldsNamed_of_mem_keys (fields : List (Bytes × Bytes)) (name : Bytes)
    (hmem : name ∈ (HTTP.ReadMIMEHeader fields).map Prod.fst) :
    HTTP.fieldsNamed fields name ≠ [] := by
  have h := (HTTP.mem_keys_foldl_Add (HTTP.canonicalFields fields) [] name).mp hmem
  have hin : name ∈ (HTTP.canonicalFields fields).map Prod.fst := by simpa using h
  obtain ⟨field, hfield, hname⟩ := List.mem_map.mp hin
  intro hnil
  have hf : field ∈ HTTP.fieldsNamed fields name :=
    List.mem_filter.mpr ⟨hfield, by simp [hname]⟩
  rw [hnil] at hf
  exact List.not_mem_nil _ hf

theorem HTTP.values_eq_some (h : HTTP.Header) (name : Bytes) (vs : List Bytes)
    (hv : HTTP.Header.values h name = some vs) : (name, vs) ∈ h := by
  unfold HTTP.Header.values at hv
  cases hfind : h.find? (fun entry => decide (entry.1 = name)) with
  | none => rw [hfind] at hv; exact absurd hv (by simp)
  | some entry =>
    rw [hfind] at hv
    have hmem := List.mem_of_find?_eq_some hfind
    have hname : entry.1 = name := by simpa using List.find?_some hfind
    have hvs : entry.2 = vs := by simpa using hv
    have : entry = (name, vs) := by rw [← hname, ← hvs]
    rw [← this]
    exact hmem

theorem HTTP.values_eq_none (h : HTTP.Header) (name : Bytes)
    (hv : HTTP.Header.values h name = none) : name ∉ h.map Prod.fst := by
  unfold HTTP.Header.values at hv
  have hfind : h.find? (fun entry => decide (entry.1 = name)) = none := by
    cases hf : h.find? (fun entry => decide (entry.1 = name)) with
    | none => rfl
    | some entry => rw [hf] at hv; exact absurd hv (by simp)
  intro hmem
  obtain ⟨entry, hentry, hname⟩ := List.mem_map.mp hmem
  have := List.find?_eq_none.mp hfind entry hentry
  simp [hname] at this

/-- In a map with distinct keys, the fields under a name are the values the
lookup of that name returns. -/
theorem HTTP.filter_fieldsOf_values (h : HTTP.Header) (hnd : (h.map Prod.fst).Nodup)
    (name : Bytes) (vs : List Bytes) (hv : HTTP.Header.values h name = some vs) :
    (HTTP.fieldsOf h).filter (fun field => decide (field.1 = name)) =
      vs.map (fun value => (name, value)) :=
  HTTP.filter_fieldsOf_entry h hnd (name, vs) (HTTP.values_eq_some h name vs hv)

theorem HTTP.mem_keys_Del (h : HTTP.Header) (key x : Bytes)
    (hx : x ∈ (HTTP.Header.Del h key).map Prod.fst) : x ∈ h.map Prod.fst :=
  ((List.filter_sublist h).map Prod.fst).subset hx

theorem HTTP.mem_keys_assign (h : HTTP.Header) (key x : Bytes) (values : List Bytes)
    (hx : x ∈ (HTTP.Header.assign h key values).map Prod.fst) :
    x ∈ h.map Prod.fst ∨ x = key := by
  unfold HTTP.Header.assign at hx
  rw [List.map_append, List.mem_append] at hx
  rcases hx with h1 | h2
  · exact Or.inl (HTTP.mem_keys_Del h key x h1)
  · exact Or.inr (by simpa using h2)

theorem HTTP.fieldsOf_append (a b : HTTP.Header) :
    HTTP.fieldsOf (a ++ b) = HTTP.fieldsOf a ++ HTTP.fieldsOf b := by
  simp [HTTP.fieldsOf]

theorem HTTP.nodup_keys_Del (h : HTTP.Header) (key : Bytes) (hnd : (h.map Prod.fst).Nodup) :
    ((HTTP.Header.Del h key).map Prod.fst).Nodup :=
  hnd.sublist ((List.filter_sublist h).map Prod.fst)

theorem HTTP.not_mem_keys_Del (h : HTTP.Header) (key : Bytes) :
    key ∉ (HTTP.Header.Del h key).map Prod.fst := by
  simp [HTTP.Header.Del, List.mem_filter]

theorem HTTP.filter_fieldsOf_Del (h : HTTP.Header) (key name : Bytes) (hne : name ≠ key) :
    (HTTP.fieldsOf (HTTP.Header.Del h key)).filter (fun field => decide (field.1 = name)) =
      (HTTP.fieldsOf h).filter (fun field => decide (field.1 = name)) := by
  induction h with
  | nil => rfl
  | cons entry rest ih =>
    obtain ⟨k, vs⟩ := entry
    by_cases hk : k = key
    · have hdel : HTTP.Header.Del ((k, vs) :: rest) key = HTTP.Header.Del rest key := by
        simp [HTTP.Header.Del, hk]
      have hkn : ¬ k = name := fun e => hne (e.symm.trans hk)
      rw [hdel, ih, HTTP.fieldsOf_cons, List.filter_append, HTTP.filter_values, if_neg hkn,
        List.nil_append]
    · have hdel : HTTP.Header.Del ((k, vs) :: rest) key =
          (k, vs) :: HTTP.Header.Del rest key := by
        simp [HTTP.Header.Del, hk]
      rw [hdel, HTTP.fieldsOf_cons, HTTP.fieldsOf_cons, List.filter_append, List.filter_append,
        ih]

theorem HTTP.nodup_keys_assign (h : HTTP.Header) (key : Bytes) (values : List Bytes)
    (hnd : (h.map Prod.fst).Nodup) : ((HTTP.Header.assign h key values).map Prod.fst).Nodup := by
  unfold HTTP.Header.assign
  rw [List.map_append, List.nodup_append]
  refine ⟨HTTP.nodup_keys_Del h key hnd, by simp, ?_⟩
  intro x hx hx2
  have hxk : x = key := by simpa using hx2
  rw [hxk] at hx
  exact HTTP.not_mem_keys_Del h key hx

theorem HTTP.filter_fieldsOf_assign (h : HTTP.Header) (key name : Bytes) (values : List Bytes)
    (hne : name ≠ key) :
    (HTTP.fieldsOf (HTTP.Header.assign h key values)).filter
        (fun field => decide (field.1 = name)) =
      (HTTP.fieldsOf h).filter (fun field => decide (field.1 = name)) := by
  have hkn : ¬ key = name := fun e => hne e.symm
  have hlast : HTTP.fieldsOf [(key, values)] = values.map (fun value => (key, value)) := by
    simp [HTTP.fieldsOf]
  unfold HTTP.Header.assign
  rw [HTTP.fieldsOf_append, List.filter_append, HTTP.filter_fieldsOf_Del h key name hne, hlast,
    HTTP.filter_values, if_neg hkn, List.append_nil]

/-- The rewrite `fixPragmaCacheControl` keeps the keys distinct, adds no key
but `Cache-Control`, and touches only `Cache-Control`. -/
theorem HTTP.fixPragmaCacheControl_spec (h : HTTP.Header) (hnd : (h.map Prod.fst).Nodup) :
    ((HTTP.fixPragmaCacheControl h).map Prod.fst).Nodup ∧
    (∀ x, x ∈ (HTTP.fixPragmaCacheControl h).map Prod.fst →
      x ∈ h.map Prod.fst ∨ x = str "Cache-Control") ∧
    ∀ name, name ≠ str "Cache-Control" →
      (HTTP.fieldsOf (HTTP.fixPragmaCacheControl h)).filter
          (fun field => decide (field.1 = name)) =
        (HTTP.fieldsOf h).filter (fun field => decide (field.1 = name)) := by
  unfold HTTP.fixPragmaCacheControl
  split
  · split
    · exact ⟨HTTP.nodup_keys_assign _ _ _ hnd, fun x hx => HTTP.mem_keys_assign _ _ _ _ hx,
        fun name hne => HTTP.filter_fieldsOf_assign _ _ _ _ hne⟩
    · exact ⟨hnd, fun _ hx => Or.inl hx, fun _ _ => rfl⟩
  · exact ⟨hnd, fun _ hx => Or.inl hx, fun _ _ => rfl⟩

/-- The rewrite `fixPragmaCacheControl` changes the map only when the first
`Pragma` value is `no-cache` and there is no `Cache-Control` entry. -/
theorem HTTP.fixPragmaCacheControl_id (h : HTTP.Header)
    (hno : ¬ ∃ first rest, HTTP.Header.values h (str "Pragma") = some (first :: rest) ∧
      first = str "no-cache" ∧ HTTP.Header.values h (str "Cache-Control") = none) :
    HTTP.fixPragmaCacheControl h = h := by
  unfold HTTP.fixPragmaCacheControl
  split
  · rename_i first rest hp
    split
    · rename_i hcond
      exact absurd ⟨first, rest, hp, hcond.1, hcond.2⟩ hno
    · rfl
  · rfl

/-- The rewrite `readTransfer` keeps the keys distinct; it touches no name but
`Transfer-Encoding`, `Content-Length` and `Trailer`, `Content-Length` only
when the request is chunked or the map holds several values for it, `Trailer`
only when the request is chunked. -/
theorem HTTP.readTransfer_spec (http11 : Bool) (h : HTTP.Header)
    (hnd : (h.map Prod.fst).Nodup) :
    ((HTTP.readTransfer http11 h).map Prod.fst).Nodup ∧
    ∀ name, name ≠ str "Transfer-Encoding" →
      (name = str "Content-Length" →
        ((HTTP.Header.values h (str "Transfer-Encoding")).isSome && http11) = false ∧
        ¬ ∃ first second rest, HTTP.Header.values
          (HTTP.Header.Del h (str "Transfer-Encoding")) (str "Content-Length") =
            some (first :: second :: rest)) →
      (name = str "Trailer" →
        ((HTTP.Header.values h (str "Transfer-Encoding")).isSome && http11) = false) →
      (HTTP.fieldsOf (HTTP.readTransfer http11 h)).filter
          (fun field => decide (field.1 = name)) =
        (HTTP.fieldsOf h).filter (fun field => decide (field.1 = name)) := by
  have step1 := HTTP.nodup_keys_Del h (str "Transfer-Encoding") hnd
  have hlen : ∀ g : HTTP.Header, (g.map Prod.fst).Nodup →
      ((match HTTP.Header.values g (str "Content-Length") with
        | some (first :: _ :: _) => HTTP.Header.assign g (str "Content-Length") [first]
        | _ => g).map Prod.fst).Nodup ∧
      ∀ name, (name = str "Content-Length" → ¬ ∃ first second rest,
          HTTP.Header.values g (str "Content-Length") = some (first :: second :: rest)) →
        (HTTP.fieldsOf (match HTTP.Header.values g (str "Content-Length") with
          | some (first :: _ :: _) => HTTP.Header.assign g (str "Content-Length") [first]
          | _ => g)).filter (fun field => decide (field.1 = name)) =
        (HTTP.fieldsOf g).filter (fun field => decide (field.1 = name)) := by
    intro g hg
    split
    · rename_i first second rest hv
      refine ⟨HTTP.nodup_keys_assign _ _ _ hg, ?_⟩
      intro name hcl
      by_cases hname : name = str "Content-Length"
      · exact absurd ⟨first, second, rest, hv⟩ (hcl hname)
      · exact HTTP.filter_fieldsOf_assign _ _ _ _ hname
    · exact ⟨hg, fun _ _ => rfl⟩
  have step2 := hlen _ step1
  unfold HTTP.readTransfer
  simp only []
  cases hch : ((HTTP.Header.values h (str "Transfer-Encoding")).isSome && http11) with
  | false =>
    refine ⟨by simpa using step2.1, ?_⟩
    intro name hte hcl htr
    simp only [Bool.false_eq_true, if_false]
    rw [step2.2 name (fun e => (hcl e).2), HTTP.filter_fieldsOf_Del _ _ _ hte]
  | true =>
    refine ⟨by simpa using HTTP.nodup_keys_Del _ _ (HTTP.nodup_keys_Del _ _ step2.1), ?_⟩
    intro name hte hcl htr
    have hncl : name ≠ str "Content-Length" := by
      intro e
      exact absurd (hcl e).1 (by decide)
    have hntr : name ≠ str "Trailer" := by
      intro e
      exact absurd (htr e) (by decide)
    simp only [if_true]
    rw [HTTP.filter_fieldsOf_Del _ _ _ hntr, HTTP.filter_fieldsOf_Del _ _ _ hncl,
      step2.2 name (fun e => absurd e hncl), HTTP.filter_fieldsOf_Del _ _ _ hte]

/-- The keys of the header map of a request are pairwise distinct, it has no
`Host` entry, and under every name that `http.ReadRequest` does not rewrite
for this request it holds the values of the request's fields of that name, in
their order. -/
theorem HTTP.headerOf_spec (http11 : Bool) (fields : List (Bytes × Bytes)) :
    ((HTTP.headerOf http11 fields).map Prod.fst).Nodup ∧
    str "Host" ∉ (HTTP.headerOf http11 fields).map Prod.fst ∧
    ∀ name, HTTP.isRewritten http11 fields name = false →
      (HTTP.fieldsOf (HTTP.headerOf http11 fields)).filter
          (fun field => decide (field.1 = name)) =
        HTTP.fieldsNamed fields name := by
  have h0 := HTTP.nodup_keys_ReadMIMEHeader fields
  have h1 := HTTP.fixPragmaCacheControl_spec _ h0
  have h2 := HTTP.readTransfer_spec http11 _ h1.1
  refine ⟨HTTP.nodup_keys_Del _ _ h2.1, HTTP.not_mem_keys_Del _ _, ?_⟩
  intro name hname
  simp only [HTTP.isRewritten, Bool.or_eq_false_iff, Bool.and_eq_false_iff,
    decide_eq_false_iff_not] at hname
  obtain ⟨⟨⟨⟨hhost, hte⟩, hcl⟩, htr⟩, hcc⟩ := hname
  -- the lookup of `Transfer-Encoding` after `fixPragmaCacheControl`
  have hchunk : ∀ vs, HTTP.Header.values
      (HTTP.fixPragmaCacheControl (HTTP.ReadMIMEHeader fields)) (str "Transfer-Encoding") =
        some vs → HTTP.fieldsNamed fields (str "Transfer-Encoding") ≠ [] := by
    intro vs hv
    have hmem : str "Transfer-Encoding" ∈
        (HTTP.fixPragmaCacheControl (HTTP.ReadMIMEHeader fields)).map Prod.fst :=
      List.mem_map.mpr ⟨_, HTTP.values_eq_some _ _ _ hv, rfl⟩
    rcases h1.2.1 _ hmem with hin | heq
    · exact HTTP.fieldsNamed_of_mem_keys fields _ hin
    · exact absurd heq (by decide)
  have hmodel : HTTP.isChunked http11 fields = false →
      ((HTTP.Header.values (HTTP.fixPragmaCacheControl (HTTP.ReadMIMEHeader fields))
        (str "Transfer-Encoding")).isSome && http11) = false := by
    intro hc
    cases hv : HTTP.Header.values (HTTP.fixPragmaCacheControl (HTTP.ReadMIMEHeader fields))
        (str "Transfer-Encoding") with
    | none => rfl
    | some vs =>
      have hne := hchunk vs hv
      cases hh : http11 with
      | false => rfl
      | true =>
        rw [hh] at hc
        have hem : (HTTP.fieldsNamed fields (str "Transfer-Encoding")).isEmpty = false := by
          cases hl : HTTP.fieldsNamed fields (str "Transfer-Encoding") with
          | nil => exact absurd hl hne
          | cons _ _ => rfl
        simp [HTTP.isChunked, hem] at hc
  -- step 1: `fixPragmaCacheControl`
  have e1 : (HTTP.fieldsOf (HTTP.fixPragmaCacheControl (HTTP.ReadMIMEHeader fields))).filter
      (fun field => decide (field.1 = name)) = HTTP.fieldsNamed fields name := by
    by_cases hn : name = str "Cache-Control"
    · have hid : HTTP.fixPragmaCacheControl (HTTP.ReadMIMEHeader fields) =
          HTTP.ReadMIMEHeader fields := by
        apply HTTP.fixPragmaCacheControl_id
        rintro ⟨first, rest, hp, hfirst, hnone⟩
        have habs := HTTP.filter_fieldsOf_absent _ _ (HTTP.values_eq_none _ _ hnone)
        rw [HTTP.filter_fieldsOf_ReadMIMEHeader] at habs
        have hpr := HTTP.filter_fieldsOf_values _ h0 _ _ hp
        rw [HTTP.filter_fieldsOf_ReadMIMEHeader] at hpr
        rcases hcc with (hc | hc) | hc
        · exact hc hn
        · simp [habs] at hc
        · apply hc
          rw [hpr, hfirst]
          rfl
      rw [hid, HTTP.filter_fieldsOf_ReadMIMEHeader]
    · rw [h1.2.2 name hn, HTTP.filter_fieldsOf_ReadMIMEHeader]
  -- step 2: `readTransfer`
  have e2 : (HTTP.fieldsOf (HTTP.readTransfer http11
      (HTTP.fixPragmaCacheControl (HTTP.ReadMIMEHeader fields)))).filter
      (fun field => decide (field.1 = name)) = HTTP.fieldsNamed fields name := by
    rw [h2.2 name hte ?_ ?_, e1]
    · intro hn
      have hcl2 : HTTP.isChunked http11 fields = false ∧
          ¬ 2 ≤ (HTTP.fieldsNamed fields (str "Content-Length")).length := by
        rcases hcl with hc | hc
        · exact absurd hn hc
        · simpa using hc
      refine ⟨hmodel hcl2.1, ?_⟩
      rintro ⟨first, second, rest, hv⟩
      have hfl := HTTP.filter_fieldsOf_values _
        (HTTP.nodup_keys_Del _ (str "Transfer-Encoding") h1.1) _ _ hv
      rw [HTTP.filter_fieldsOf_Del _ _ _ (by decide), ← hn, e1, hn] at hfl
      apply hcl2.2
      rw [hfl]
      simp
    · intro hn
      rcases htr with hc | hc
      · exact absurd hn hc
      · exact hmodel hc
  unfold HTTP.headerOf
  rw [HTTP.filter_fieldsOf_Del _ _ _ hhost, e2]

/-- Enumerating a map with distinct keys in another order does not change the
sequence of fields under any one name. -/
theorem HTTP.filter_fieldsOf_perm (name : Bytes) {entries h : HTTP.Header}
    (hperm : entries.Perm h) (hnd : (h.map Prod.fst).Nodup) :
    (HTTP.fieldsOf entries).filter (fun field => decide (field.1 = name)) =
      (HTTP.fieldsOf h).filter (fun field => decide (field.1 = name)) := by
  induction hperm with
  | nil => rfl
  | cons x _ ih =>
    rw [List.map_cons, List.nodup_cons] at hnd
    rw [HTTP.fieldsOf_cons, HTTP.fieldsOf_cons, List.filter_append, List.filter_append, ih hnd.2]
  | swap x y l =>
    have hxy : y.1 ≠ x.1 := by
      intro e
      rw [List.map_cons, List.map_cons, List.nodup_cons] at hnd
      exact hnd.1 (by simp [e])
    simp only [HTTP.fieldsOf_cons, List.filter_append, HTTP.filter_values]
    by_cases hx : x.1 = name
    · have hy : ¬ y.1 = name := fun e => hxy (e.trans hx.symm)
      simp [hx, hy]
    · simp [hx]
  | trans p1 p2 ih1 ih2 =>
    have hmid := ((p2.map Prod.fst).nodup_iff).mpr hnd
    rw [ih1 hmid, ih2 hnd]

theorem perm_pair {α : Type} {l : List α} {a b : α} (h : l.Perm [a, b]) :
    l = [a, b] ∨ l = [b, a] := by
  have hlen := h.length_eq
  match l, h, hlen with
  | [x, y], h, _ =>
    have hx : x ∈ [a, b] := h.subset (List.mem_cons_self x [y])
    rcases List.mem_cons.mp hx with hxa | hxb
    · subst hxa
      have hy := List.perm_singleton.mp ((List.perm_cons x).mp h)
      left
      rw [List.cons.injEq] at hy
      rw [hy.1]
    · have hxb2 : x = b := by simpa using hxb
      subst hxb2
      have h2 : [x, y].Perm [x, a] := h.trans (List.Perm.swap x a [])
      have hy := List.perm_singleton.mp ((List.perm_cons x).mp h2)
      right
      rw [List.cons.injEq] at hy
      rw [hy.1]

/-- The first call of `forwardRequest` is the write of the request head. -/
theorem HTTP.forwardRequest_head (env : HTTP.Env) (req : HTTP.Request) (targetPath : Bytes) :
    (HTTP.forwardRequest env req targetPath).1.head? =
      some (Event.backendWrite (HTTP.requestHead env.rangeHeader req targetPath)) := by
  unfold HTTP.forwardRequest
  cases env.backendWriteOk <;> cases req.hasBody <;> simp

/-- The fields of a map with distinct keys come name by name: filtering them
leaves, for each key in turn, the kept fields of that name. -/
theorem HTTP.filter_fieldsOf_grouped (entries : HTTP.Header)
    (hnd : (entries.map Prod.fst).Nodup) (p : Bytes × Bytes → Bool) :
    (HTTP.fieldsOf entries).filter p =
      (entries.map Prod.fst).flatMap (fun name =>
        ((HTTP.fieldsOf entries).filter p).filter (fun field => decide (field.1 = name))) := by
  have hblock : ∀ entry ∈ entries,
      ((HTTP.fieldsOf entries).filter p).filter (fun field => decide (field.1 = entry.1)) =
        (entry.2.map (fun value => (entry.1, value))).filter p := by
    intro entry hmem
    rw [List.filter_filter, ← HTTP.filter_fieldsOf_entry entries hnd entry hmem,
      List.filter_filter]
    congr 1
    funext field
    exact Bool.and_comm _ _
  rw [List.flatMap_map, List.flatMap_congr hblock]
  show List.filter p (HTTP.fieldsOf entries) =
    entries.flatMap (fun entry => (entry.2.map (fun value => (entry.1, value))).filter p)
  rw [HTTP.fieldsOf, List.filter_flatMap]

/-- C6 (counterexample): six requests on which `forwardRequest`, under no
enumeration order of the header map, writes the header fields of the request
other than `Proxy-Connection` as sent and in the order of the request.
(1) Fields `A: 1`, `B: 2`, `A: 3`: the map holds `A` with values `1, 3` and `B`
with `2`, so the two `A` lines are written together. (2) Fields `Host: h`,
`A: 1`: the map has no `Host` entry and no `Host` line is written. (3) A
chunked request with `Transfer-Encoding`, `Content-Length` and `Trailer`: the
map has none of the three. (4) Field `Pragma: no-cache`: the map also holds
`Cache-Control: no-cache`, a line the request does not have. (5) Field
`accept: x`: the line is written under the name `Accept`. (6) Two fields
`Content-Length: 5`: the map holds one value and one line is written. -/
theorem http_header_lines_not_as_sent :
    (¬ ∃ env : HTTP.Env,
      env.rangeHeader.Perm
        (HTTP.headerOf true [(str "A", str "1"), (str "B", str "2"), (str "A", str "3")]) ∧
      (HTTP.forwardRequest env
          ⟨str "GET", str "h", ⟨false, none, str "/"⟩, str "HTTP/1.1",
            HTTP.headerOf true [(str "A", str "1"), (str "B", str "2"), (str "A", str "3")],
            false⟩
          (str "/")).1.head? =
        some (Event.backendWrite
          (str "GET / HTTP/1.1\r\n" ++ str "A: 1\r\n" ++ str "B: 2\r\n" ++ str "A: 3\r\n"
            ++ str "\r\n"))) ∧
    (¬ ∃ env : HTTP.Env,
      env.rangeHeader.Perm (HTTP.headerOf true [(str "Host", str "h"), (str "A", str "1")]) ∧
      (HTTP.forwardRequest env
          ⟨str "GET", str "h", ⟨false, none, str "/"⟩, str "HTTP/1.1",
            HTTP.headerOf true [(str "Host", str "h"), (str "A", str "1")], false⟩
          (str "/")).1.head? =
        some (Event.backendWrite
          (str "GET / HTTP/1.1\r\n" ++ str "Host: h\r\n" ++ str "A: 1\r\n" ++ str "\r\n"))) ∧
    (¬ ∃ env : HTTP.Env,
      env.rangeHeader.Perm
        (HTTP.headerOf true [(str "Transfer-Encoding", str "chunked"),
          (str "Content-Length", str "5"), (str "Trailer", str "T"), (str "A", str "1")]) ∧
      (HTTP.forwardRequest env
          ⟨str "POST", str "h", ⟨false, none, str "/"⟩, str "HTTP/1.1",
            HTTP.headerOf true [(str "Transfer-Encoding", str "chunked"),
              (str "Content-Length", str "5"), (str "Trailer", str "T"), (str "A", str "1")],
            true⟩
          (str "/")).1.head? =
        some (Event.backendWrite
          (str "POST / HTTP/1.1\r\n" ++ str "Transfer-Encoding: chunked\r\n"
            ++ str "Content-Length: 5\r\n" ++ str "Trailer: T\r\n" ++ str "A: 1\r\n"
            ++ str "\r\n"))) ∧
    (¬ ∃ env : HTTP.Env,
      env.rangeHeader.Perm (HTTP.headerOf true [(str "Pragma", str "no-cache")]) ∧
      (HTTP.forwardRequest env
          ⟨str "GET", str "h", ⟨false, none, str "/"⟩, str "HTTP/1.1",
            HTTP.headerOf true [(str "Pragma", str "no-cache")], false⟩
          (str "/")).1.head? =
        some (Event.backendWrite
          (str "GET / HTTP/1.1\r\n" ++ str "Pragma: no-cache\r\n" ++ str "\r\n"))) ∧
    (¬ ∃ env : HTTP.Env,
      env.rangeHeader.Perm (HTTP.headerOf true [(str "accept", str "x")]) ∧
      (HTTP.forwardRequest env
          ⟨str "GET", str "h", ⟨false, none, str "/"⟩, str "HTTP/1.1",
            HTTP.headerOf true [(str "accept", str "x")], false⟩
          (str "/")).1.head? =
        some (Event.backendWrite
          (str "GET / HTTP/1.1\r\n" ++ str "accept: x\r\n" ++ str "\r\n"))) ∧
    (¬ ∃ env : HTTP.Env,
      env.rangeHeader.Perm
        (HTTP.headerOf true [(str "Content-Length", str "5"), (str "Content-Length", str "5")]) ∧
      (HTTP.forwardRequest env
          ⟨str "POST", str "h", ⟨false, none, str "/"⟩, str "HTTP/1.1",
            HTTP.headerOf true [(str "Content-Length", str "5"), (str "Content-Length", str "5")],
            true⟩
          (str "/")).1.head? =
        some (Event.backendWrite
          (str "POST / HTTP/1.1\r\n" ++ str "Content-Length: 5\r\n"
            ++ str "Content-Length: 5\r\n" ++ str "\r\n"))) := by
  refine ⟨?_, ?_, ?_, ?_, ?_, ?_⟩
  · rintro ⟨env, hperm, heq⟩
    have hmap : HTTP.headerOf true [(str "A", str "1"), (str "B", str "2"), (str "A", str "3")] =
        [(str "A", [str "1", str "3"]), (str "B", [str "2"])] := by decide
    rw [HTTP.forwardRequest_head, hmap] at heq
    rw [hmap] at hperm
    rcases perm_pair hperm with h | h
    · rw [h] at heq
      revert heq
      decide
    · rw [h] at heq
      revert heq
      decide
  · rintro ⟨env, hperm, heq⟩
    have hmap : HTTP.headerOf true [(str "Host", str "h"), (str "A", str "1")] =
        [(str "A", [str "1"])] := by decide
    rw [HTTP.forwardRequest_head, hmap] at heq
    rw [hmap] at hperm
    rw [List.perm_singleton.mp hperm] at heq
    revert heq
    decide
  · rintro ⟨env, hperm, heq⟩
    have hmap : HTTP.headerOf true [(str "Transfer-Encoding", str "chunked"),
        (str "Content-Length", str "5"), (str "Trailer", str "T"), (str "A", str "1")] =
        [(str "A", [str "1"])] := by decide
    rw [HTTP.forwardRequest_head, hmap] at heq
    rw [hmap] at hperm
    rw [List.perm_singleton.mp hperm] at heq
    revert heq
    decide
  · rintro ⟨env, hperm, heq⟩
    have hmap : HTTP.headerOf true [(str "Pragma", str "no-cache")] =
        [(str "Pragma", [str "no-cache"]), (str "Cache-Control", [str "no-cache"])] := by decide
    rw [HTTP.forwardRequest_head, hmap] at heq
    rw [hmap] at hperm
    rcases perm_pair hperm with h | h
    · rw [h] at heq
      revert heq
      decide
    · rw [h] at heq
      revert heq
      decide
  · rintro ⟨env, hperm, heq⟩
    have hmap : HTTP.headerOf true [(str "accept", str "x")] = [(str "Accept", [str "x"])] := by
      decide
    rw [HTTP.forwardRequest_head, hmap] at heq
    rw [hmap] at hperm
    rw [List.perm_singleton.mp hperm] at heq
    revert heq
    decide
  · rintro ⟨env, hperm, heq⟩
    have hmap : HTTP.headerOf true
        [(str "Content-Length", str "5"), (str "Content-Length", str "5")] =
        [(str "Content-Length", [str "5"])] := by decide
    rw [HTTP.forwardRequest_head, hmap] at heq
    rw [hmap] at hperm
    rw [List.perm_singleton.mp hperm] at heq
    revert heq
    decide

/-- C6 (amended): for a request with header fields `fields` and for every order
in which its header map is enumerated, the header lines `forwardRequest` writes
between the request line and the empty line are the lines `name: value` of a
list `kept` of fields such that: the fields of `kept` come name by name, the
fields sharing a name written together (`names` lists the names in the order
of the enumeration); no kept field is named `Proxy-Connection` (in any case);
and under every other name that `http.ReadRequest` does not rewrite for this
request, `kept` holds exactly the fields of the request of that name (the name
in canonical case), each once, with the value unchanged and in the order of
the request. The names left out are `Host` and `Transfer-Encoding`,
`Content-Length` and `Trailer` of a chunked request, `Content-Length` when the
request has several such fields, and `Cache-Control` when the request has no
such field and its first `Pragma` value is `no-cache`; what is written under
them is not stated. -/
theorem http_forwarded_headers (env : HTTP.Env) (req : HTTP.Request) (targetPath : Bytes)
    (http11 : Bool) (fields : List (Bytes × Bytes))
    (hmap : req.Header = HTTP.headerOf http11 fields)
    (hrange : env.rangeHeader.Perm req.Header) :
    ∃ (names : List Bytes) (kept : List (Bytes × Bytes)),
      (HTTP.forwardRequest env req targetPath).1.head? =
        some (Event.backendWrite
          (HTTP.requestLine req targetPath ++ (kept.map HTTP.fieldLine).flatten ++ str "\r\n")) ∧
      names.Nodup ∧
      kept = names.flatMap (fun name => kept.filter (fun field => decide (field.1 = name))) ∧
      (∀ field ∈ kept, HTTP.isProxyConnection field.1 = false) ∧
      ∀ name : Bytes, HTTP.isProxyConnection name = false →
        HTTP.isRewritten http11 fields name = false →
        kept.filter (fun field => decide (field.1 = name)) = HTTP.fieldsNamed fields name := by
  rw [hmap] at hrange
  have hspec := HTTP.headerOf_spec http11 fields
  have hnd : (env.rangeHeader.map Prod.fst).Nodup :=
    ((hrange.map Prod.fst).nodup_iff).mpr hspec.1
  refine ⟨env.rangeHeader.map Prod.fst, (HTTP.fieldsOf env.rangeHeader).filter
    (fun field => !HTTP.isProxyConnection field.1), ?_, hnd, ?_, ?_, ?_⟩
  · rw [HTTP.forwardRequest_head, HTTP.requestHead_eq]
  · exact HTTP.filter_fieldsOf_grouped env.rangeHeader hnd _
  · intro field hfield
    have := (List.mem_filter.mp hfield).2
    simpa using this
  · intro name hpc hname
    have hcomm : ∀ l : List (Bytes × Bytes),
        (l.filter (fun field => !HTTP.isProxyConnection field.1)).filter
            (fun field => decide (field.1 = name)) =
          l.filter (fun field => decide (field.1 = name)) := by
      intro l
      rw [List.filter_filter]
      apply List.filter_congr
      intro field _
      by_cases hf : field.1 = name
      · simp [hf, hpc]
      · simp [hf]
    rw [hcomm, HTTP.filter_fieldsOf_perm name hrange hspec.1, hspec.2.2 name hname]

/-- Witness for C6 (amended): the fields `Host: h`, `accept: a`,
`Proxy-Connection: b`, `Accept: c`, the map enumerated with `Proxy-Connection`
first. -/
theorem http_forwarded_headers_witness :
    ∃ (names : List Bytes) (kept : List (Bytes × Bytes)),
      (HTTP.forwardRequest
          ⟨true, true, true, true,
            [(str "Proxy-Connection", [str "b"]), (str "Accept", [str "a", str "c"])]⟩
          ⟨str "GET", str "h", ⟨false, none, str "/"⟩, str "HTTP/1.1",
            HTTP.headerOf true [(str "Host", str "h"), (str "accept", str "a"),
              (str "Proxy-Connection", str "b"), (str "Accept", str "c")], false⟩
          (str "/")).1.head? =
        some (Event.backendWrite
          (HTTP.requestLine
              ⟨str "GET", str "h", ⟨false, none, str "/"⟩, str "HTTP/1.1",
                HTTP.headerOf true [(str "Host", str "h"), (str "accept", str "a"),
                  (str "Proxy-Connection", str "b"), (str "Accept", str "c")], false⟩
              (str "/")
            ++ (kept.map HTTP.fieldLine).flatten ++ str "\r\n")) ∧
      names.Nodup ∧
      kept = names.flatMap (fun name => kept.filter (fun field => decide (field.1 = name))) ∧
      (∀ field ∈ kept, HTTP.isProxyConnection field.1 = false) ∧
      ∀ name : Bytes, HTTP.isProxyConnection name = false →
        HTTP.isRewritten true [(str "Host", str "h"), (str "accept", str "a"),
          (str "Proxy-Connection", str "b"), (str "Accept", str "c")] name = false →
        kept.filter (fun field => decide (field.1 = name)) =
          HTTP.fieldsNamed [(str "Host", str "h"), (str "accept", str "a"),
            (str "Proxy-Connection", str "b"), (str "Accept", str "c")] name :=
  http_forwarded_headers
    ⟨true, true, true, true,
      [(str "Proxy-Connection", [str "b"]), (str "Accept", [str "a", str "c"])]⟩
    ⟨str "GET", str "h", ⟨false, none, str "/"⟩, str "HTTP/1.1",
      HTTP.headerOf true [(str "Host", str "h"), (str "accept", str "a"),
        (str "Proxy-Connection", str "b"), (str "Accept", str "c")], false⟩
    (str "/") true
    [(str "Host", str "h"), (str "accept", str "a"), (str "Proxy-Connection", str "b"),
      (str "Accept", str "c")] rfl
    (by
      have hmap : HTTP.headerOf true [(str "Host", str "h"), (str "accept", str "a"),
          (str "Proxy-Connection", str "b"), (str "Accept", str "c")] =
          [(str "Accept", [str "a", str "c"]), (str "Proxy-Connection", [str "b"])] := by decide
      show List.Perm [(str "Proxy-Connection", [str "b"]), (str "Accept", [str "a", str "c"])]
        (HTTP.headerOf true [(str "Host", str "h"), (str "accept", str "a"),
          (str "Proxy-Connection", str "b"), (str "Accept", str "c")])
      rw [hmap]
      exact List.Perm.swap _ _ _)

/-! ## Shared scaffolding -/

/-- C10: for every connection label, timeout and body, whether the body
returns or panics, `HandleClientWithTimeout` sets the read and the write
deadline before the first call of the body, closes the connection after the
last one, and itself returns normally. -/
theorem handle_client_closes_and_contains (clientType : Bytes) (timeout : Nat)
    (body : List Event) (exit : Exit) :
    (HandleClientWithTimeout clientType timeout (body, exit)).2 = Exit.returned ∧
    ∃ reported : List Event,
      (HandleClientWithTimeout clientType timeout (body, exit)).1 =
        [Event.setReadDeadline timeout, Event.setWriteDeadline timeout] ++ body
          ++ Event.closeClient :: reported ∧
      Event.closeClient ∉ reported := by
  rcases exit with _ | v
  · exact ⟨rfl, [], by simp [HandleClientWithTimeout, withDefer], by simp⟩
  · cases v with
    | none => exact ⟨rfl, [], by simp [HandleClientWithTimeout, withDefer], by simp⟩
    | some r =>
      exact ⟨rfl, [Event.reportPanic clientType r],
        by simp [HandleClientWithTimeout, withDefer], by simp⟩

/-! ## Forwarder -/

theorem Forward.Copy.step_of_done (c : Forward.Copy) (h : c.done = true) : c.step = c := by
  simp [Forward.Copy.step, h]

theorem Forward.Copy.canFinish_step (c : Forward.Copy) : c.step.canFinish = c.canFinish := by
  rcases c with ⟨pending, srcEnds, budget, done⟩
  cases done <;> cases srcEnds <;> cases pending <;> rcases budget with _ | _ | k <;>
    simp [Forward.Copy.step, Forward.Copy.canFinish]

theorem Forward.Copy.canFinish_of_done (c : Forward.Copy) (h : c.done = true) :
    c.canFinish = true := by
  simp [Forward.Copy.canFinish, h]

theorem Forward.Copy.step_progress (c : Forward.Copy) (h : c.canFinish = true) :
    c.step.done = true ∨ c.step.pending.length + 1 = c.pending.length := by
  rcases c with ⟨pending, srcEnds, budget, done⟩
  cases done <;> cases srcEnds <;> cases pending <;> rcases budget with _ | _ | k <;>
    simp_all [Forward.Copy.step, Forward.Copy.canFinish]

theorem Forward.Copy.iterate_of_done (k : Nat) (c : Forward.Copy) (h : c.done = true) :
    (Forward.Copy.step^[k] c).done = true := by
  induction k generalizing c with
  | zero => simpa using h
  | succ n ih =>
    rw [Function.iterate_succ_apply, Forward.Copy.step_of_done c h]
    exact ih c h

/-- A copy that can return has returned after one turn more than it has
pending chunks. -/
theorem Forward.Copy.iterate_done (k : Nat) (c : Forward.Copy) (hk : c.pending.length < k)
    (h : c.canFinish = true) : (Forward.Copy.step^[k] c).done = true := by
  induction k generalizing c with
  | zero => omega
  | succ n ih =>
    rw [Function.iterate_succ_apply]
    rcases Forward.Copy.step_progress c h with hdone | hlen
    · exact Forward.Copy.iterate_of_done n _ hdone
    · exact ih _ (by omega) (by rw [Forward.Copy.canFinish_step]; exact h)

theorem Forward.invariant_start (conn1 conn2 : Forward.Conn) :
    Forward.Invariant (Forward.finishes conn1 conn2) (Forward.finishes conn2 conn1)
      (Forward.start conn1 conn2) := by
  refine ⟨by simp [Forward.start], by simp [Forward.start], ?_, ?_⟩ <;>
    simp [Forward.start, Forward.Copy.canFinish, Forward.finishes]

theorem Forward.invariant_step (f1 f2 : Bool) (t : Forward.Thread) (s : Forward.State)
    (h : Forward.Invariant f1 f2 s) : Forward.Invariant f1 f2 (Forward.step t s) := by
  obtain ⟨hcount, hret, h1, h2⟩ := h
  cases t with
  | copyToConn1 =>
    by_cases hd : s.toConn1.done = true
    · have hstep := Forward.Copy.step_of_done _ hd
      refine ⟨?_, ?_, ?_, ?_⟩ <;> simp_all [Forward.step, Forward.Invariant]
    · have hd2 : s.toConn1.done = false := by simpa using hd
      have hnr : s.returned = false := by
        cases hr : s.returned with
        | false => rfl
        | true => exact absurd (hret hr).1 hd
      refine ⟨?_, ?_, ?_, ?_⟩
      · cases hnew : s.toConn1.step.done <;> simp [Forward.step, hnew, hd2, hcount]
      · intro hr
        have : s.returned = true := by simpa [Forward.step] using hr
        rw [hnr] at this
        exact absurd this (by decide)
      · simpa [Forward.step, Forward.Copy.canFinish_step] using h1
      · simpa [Forward.step] using h2
  | copyToConn2 =>
    by_cases hd : s.toConn2.done = true
    · have hstep := Forward.Copy.step_of_done _ hd
      refine ⟨?_, ?_, ?_, ?_⟩ <;> simp_all [Forward.step, Forward.Invariant]
    · have hd2 : s.toConn2.done = false := by simpa using hd
      have hnr : s.returned = false := by
        cases hr : s.returned with
        | false => rfl
        | true => exact absurd (hret hr).2 hd
      refine ⟨?_, ?_, ?_, ?_⟩
      · cases hnew : s.toConn2.step.done <;> simp [Forward.step, hnew, hd2, hcount]
      · intro hr
        have : s.returned = true := by simpa [Forward.step] using hr
        rw [hnr] at this
        exact absurd this (by decide)
      · simpa [Forward.step] using h1
      · simpa [Forward.step, Forward.Copy.canFinish_step] using h2
  | waiter =>
    by_cases hz : s.counter = 0
    · have hboth : s.toConn1.done = true ∧ s.toConn2.done = true := by
        rw [hz] at hcount
        cases hd1 : s.toConn1.done <;> cases hd2 : s.toConn2.done <;> simp_all
      have hs : Forward.step Forward.Thread.waiter s = { s with returned := true } := by
        simp [Forward.step, hz]
      rw [hs]
      exact ⟨hcount, fun _ => hboth, h1, h2⟩
    · have hs : Forward.step Forward.Thread.waiter s = s := by
        simp [Forward.step, hz]
      rw [hs]
      exact ⟨hcount, hret, h1, h2⟩

theorem Forward.invariant_run (f1 f2 : Bool) (schedule : List Forward.Thread)
    (s : Forward.State) (h : Forward.Invariant f1 f2 s) :
    Forward.Invariant f1 f2 (Forward.run schedule s) := by
  induction schedule generalizing s with
  | nil => exact h
  | cons t rest ih => exact ih _ (Forward.invariant_step f1 f2 t s h)

theorem Forward.run_append (a b : List Forward.Thread) (s : Forward.State) :
    Forward.run (a ++ b) s = Forward.run b (Forward.run a s) := by
  simp [Forward.run, List.foldl_append]

theorem Forward.run_copyToConn1 (k : Nat) (s : Forward.State) :
    (Forward.run (List.replicate k Forward.Thread.copyToConn1) s).toConn1 =
        Forward.Copy.step^[k] s.toConn1 ∧
      (Forward.run (List.replicate k Forward.Thread.copyToConn1) s).toConn2 = s.toConn2 := by
  induction k generalizing s with
  | zero => exact ⟨rfl, rfl⟩
  | succ n ih =>
    rw [List.replicate_succ, Function.iterate_succ_apply]
    show (Forward.run _ (Forward.step Forward.Thread.copyToConn1 s)).toConn1 = _ ∧
      (Forward.run _ (Forward.step Forward.Thread.copyToConn1 s)).toConn2 = _
    rw [(ih _).1, (ih _).2]
    exact ⟨rfl, rfl⟩

theorem Forward.run_copyToConn2 (k : Nat) (s : Forward.State) :
    (Forward.run (List.replicate k Forward.Thread.copyToConn2) s).toConn2 =
        Forward.Copy.step^[k] s.toConn2 ∧
      (Forward.run (List.replicate k Forward.Thread.copyToConn2) s).toConn1 = s.toConn1 := by
  induction k generalizing s with
  | zero => exact ⟨rfl, rfl⟩
  | succ n ih =>
    rw [List.replicate_succ, Function.iterate_succ_apply]
    show (Forward.run _ (Forward.step Forward.Thread.copyToConn2 s)).toConn2 = _ ∧
      (Forward.run _ (Forward.step Forward.Thread.copyToConn2 s)).toConn1 = _
    rw [(ih _).1, (ih _).2]
    exact ⟨rfl, rfl⟩

/-- From a state in which both goroutines can return, letting each of them
run and then the waiter makes `forwardData` return. -/
theorem Forward.returns_from (s : Forward.State) (h : Forward.Invariant true true s) :
    ∃ more : List Forward.Thread, (Forward.run more s).returned = true := by
  refine ⟨List.replicate (s.toConn1.pending.length + 1) Forward.Thread.copyToConn1
    ++ (List.replicate (s.toConn2.pending.length + 1) Forward.Thread.copyToConn2
    ++ [Forward.Thread.waiter]), ?_⟩
  rw [Forward.run_append, Forward.run_append]
  have hs1 := Forward.invariant_run true true
    (List.replicate (s.toConn1.pending.length + 1) Forward.Thread.copyToConn1) s h
  have hrun1 := Forward.run_copyToConn1 (s.toConn1.pending.length + 1) s
  have hd1 : (Forward.run
      (List.replicate (s.toConn1.pending.length + 1) Forward.Thread.copyToConn1) s).toConn1.done
      = true := by
    rw [hrun1.1]
    exact Forward.Copy.iterate_done _ _ (Nat.lt_succ_self _) h.2.2.1
  have hc2 := hrun1.2
  generalize Forward.run
    (List.replicate (s.toConn1.pending.length + 1) Forward.Thread.copyToConn1) s = s1
    at hs1 hd1 hc2
  have hs2 := Forward.invariant_run true true
    (List.replicate (s.toConn2.pending.length + 1) Forward.Thread.copyToConn2) s1 hs1
  have hrun2 := Forward.run_copyToConn2 (s.toConn2.pending.length + 1) s1
  have hd2 : (Forward.run
      (List.replicate (s.toConn2.pending.length + 1) Forward.Thread.copyToConn2) s1).toConn2.done
      = true := by
    rw [hrun2.1, hc2]
    exact Forward.Copy.iterate_done _ _ (Nat.lt_succ_self _) h.2.2.2
  have hd1b : (Forward.run
      (List.replicate (s.toConn2.pending.length + 1) Forward.Thread.copyToConn2) s1).toConn1.done
      = true := by
    rw [hrun2.2]
    exact hd1
  generalize Forward.run
    (List.replicate (s.toConn2.pending.length + 1) Forward.Thread.copyToConn2) s1 = s2
    at hs2 hd2 hd1b
  have hzero : s2.counter = 0 := by
    rw [hs2.1, hd1b, hd2]
    rfl
  simp [Forward.run, Forward.step, hzero]

/-- C11 (counterexample): connection 1 is at end of stream from the start,
connection 2 stays open and silent. The direction reading connection 1
returns at once (first conjunct), yet under no schedule does `forwardData`
return: `wg.Wait()` also waits for the direction blocked reading
connection 2. -/
theorem forwardData_blocks_on_open_side :
    (Forward.forwardData ⟨[], true, none⟩ ⟨[], false, none⟩
      [Forward.Thread.copyToConn2]).toConn2.done = true ∧
    ¬ ∃ schedule : List Forward.Thread,
      (Forward.forwardData ⟨[], true, none⟩ ⟨[], false, none⟩ schedule).returned = true := by
  refine ⟨by decide, ?_⟩
  rintro ⟨schedule, hret⟩
  have hinv := Forward.invariant_run _ _ schedule _
    (Forward.invariant_start ⟨[], true, none⟩ ⟨[], false, none⟩)
  have hdone := (hinv.2.1 hret).1
  have hcan := Forward.Copy.canFinish_of_done _ hdone
  have hf : Forward.finishes ⟨[], true, none⟩ ⟨[], false, none⟩ = false := by decide
  rw [hf] at hinv
  rw [hinv.2.2.1] at hcan
  exact absurd hcan (by decide)

/-- C11 (amended): for every pair of connections and every schedule, when
`forwardData` has returned, both copy goroutines have returned before it (each
`io.Copy` is done and the wait-group counter is zero), each because its source
reached end of stream (or failed) or because a write to its destination
failed; and when both directions finish, `forwardData` can return after every
schedule so far: letting the two copies and then the waiter run makes it
return. A direction whose source stays open, with no failing write, keeps
`forwardData` from returning, whatever the other side does. -/
theorem forwardData_returns_after_both (conn1 conn2 : Forward.Conn) :
    (∀ schedule : List Forward.Thread,
      (Forward.forwardData conn1 conn2 schedule).returned = true →
        (Forward.forwardData conn1 conn2 schedule).toConn1.done = true ∧
        (Forward.forwardData conn1 conn2 schedule).toConn2.done = true ∧
        (Forward.forwardData conn1 conn2 schedule).counter = 0 ∧
        Forward.finishes conn1 conn2 = true ∧ Forward.finishes conn2 conn1 = true) ∧
    (Forward.finishes conn1 conn2 = true → Forward.finishes conn2 conn1 = true →
      ∀ schedule : List Forward.Thread, ∃ more : List Forward.Thread,
        (Forward.forwardData conn1 conn2 (schedule ++ more)).returned = true) := by
  constructor
  · intro schedule hret
    have hinv := Forward.invariant_run _ _ schedule _ (Forward.invariant_start conn1 conn2)
    have hdone := hinv.2.1 hret
    have h1 := Forward.Copy.canFinish_of_done _ hdone.1
    have h2 := Forward.Copy.canFinish_of_done _ hdone.2
    have hcount : (Forward.forwardData conn1 conn2 schedule).counter = 0 := by
      have hc := hinv.1
      rw [hdone.1, hdone.2] at hc
      exact hc
    rw [hinv.2.2.1] at h1
    rw [hinv.2.2.2] at h2
    exact ⟨hdone.1, hdone.2, hcount, h1, h2⟩
  · intro h1 h2 schedule
    have hinv := Forward.invariant_run _ _ schedule _ (Forward.invariant_start conn1 conn2)
    rw [h1, h2] at hinv
    obtain ⟨more, hmore⟩ := Forward.returns_from _ hinv
    exact ⟨more, by rw [Forward.forwardData, Forward.run_append]; exact hmore⟩

/-- Witness for C11 (amended): both sides send one chunk and then close; under
the schedule that lets each copy take two turns and then the waiter,
`forwardData` has returned with both copies done, and after a schedule of one
turn of the waiter a return is still ahead. -/
theorem forwardData_returns_after_both_witness :
    ((Forward.forwardData ⟨[[1]], true, none⟩ ⟨[[2]], true, none⟩
        [Forward.Thread.copyToConn1, Forward.Thread.copyToConn1, Forward.Thread.copyToConn2,
          Forward.Thread.copyToConn2, Forward.Thread.waiter]).toConn1.done = true ∧
      (Forward.forwardData ⟨[[1]], true, none⟩ ⟨[[2]], true, none⟩
        [Forward.Thread.copyToConn1, Forward.Thread.copyToConn1, Forward.Thread.copyToConn2,
          Forward.Thread.copyToConn2, Forward.Thread.waiter]).toConn2.done = true ∧
      (Forward.forwardData ⟨[[1]], true, none⟩ ⟨[[2]], true, none⟩
        [Forward.Thread.copyToConn1, Forward.Thread.copyToConn1, Forward.Thread.copyToConn2,
          Forward.Thread.copyToConn2, Forward.Thread.waiter]).counter = 0 ∧
      Forward.finishes ⟨[[1]], true, none⟩ ⟨[[2]], true, none⟩ = true ∧
      Forward.finishes ⟨[[2]], true, none⟩ ⟨[[1]], true, none⟩ = true) ∧
    ∃ more : List Forward.Thread,
      (Forward.forwardData ⟨[[1]], true, none⟩ ⟨[[2]], true, none⟩
        ([Forward.Thread.waiter] ++ more)).returned = true :=
  ⟨(forwardData_returns_after_both ⟨[[1]], true, none⟩ ⟨[[2]], true, none⟩).1
      [Forward.Thread.copyToConn1, Forward.Thread.copyToConn1, Forward.Thread.copyToConn2,
        Forward.Thread.copyToConn2, Forward.Thread.waiter] (by decide),
   (forwardData_returns_after_both ⟨[[1]], true, none⟩ ⟨[[2]], true, none⟩).2 rfl rfl
      [Forward.Thread.waiter]⟩

/-! ## Configuration -/

/-- Validation passes exactly for a valid mode, non-empty SSH host, user name
and password and, in proxy mode, non-empty proxy host and proxy port. -/
theorem Config.validate_eq_none_iff (c : Config) :
    c.validate = none ↔
      (c.Mode = str "direct" ∨ c.Mode = str "proxy") ∧ c.SSH.Host ≠ [] ∧ c.SSH.Username ≠ [] ∧
        c.SSH.Password ≠ [] ∧ (c.Mode = str "proxy" → c.ProxyHost ≠ [] ∧ c.ProxyPort ≠ []) := by
  unfold Config.validate
  split_ifs with h1 h2 h3 h4 h5 <;> simp <;> tauto

/-- Validation never reads `httpPayload`. -/
theorem Config.validate_ignores_payload (c : Config) (payload : Bytes) :
    ({ c with HTTPPayload := payload } : Config).validate = c.validate := rfl

/-- C12: `Config.validate` returns an error for every config whose mode is
neither `direct` nor `proxy`, for every config whose SSH host, user name or
password is empty, and for every proxy-mode config whose proxy host or proxy
port is empty; it returns no error for a config with a valid mode, non-empty
SSH host, user name and password, non-empty `httpPayload` and, in proxy mode,
non-empty proxy host and proxy port. -/
theorem config_validate (c : Config) :
    (c.Mode ≠ str "direct" ∧ c.Mode ≠ str "proxy" → c.validate ≠ none) ∧
    (c.SSH.Host = [] ∨ c.SSH.Username = [] ∨ c.SSH.Password = [] → c.validate ≠ none) ∧
    (c.Mode = str "proxy" ∧ (c.ProxyHost = [] ∨ c.ProxyPort = []) → c.validate ≠ none) ∧
    ((c.Mode = str "direct" ∨ c.Mode = str "proxy") ∧ c.SSH.Host ≠ [] ∧ c.SSH.Username ≠ [] ∧
        c.SSH.Password ≠ [] ∧ c.HTTPPayload ≠ [] ∧
        (c.Mode = str "proxy" → c.ProxyHost ≠ [] ∧ c.ProxyPort ≠ []) →
      c.validate = none) := by
  refine ⟨?_, ?_, ?_, ?_⟩
  · intro hmode hnone
    have h := (Config.validate_eq_none_iff c).mp hnone
    rcases h.1 with hd | hp
    · exact hmode.1 hd
    · exact hmode.2 hp
  · intro hempty hnone
    have h := (Config.validate_eq_none_iff c).mp hnone
    rcases hempty with he | he | he
    · exact h.2.1 he
    · exact h.2.2.1 he
    · exact h.2.2.2.1 he
  · intro hproxy hnone
    have h := ((Config.validate_eq_none_iff c).mp hnone).2.2.2.2 hproxy.1
    rcases hproxy.2 with he | he
    · exact h.1 he
    · exact h.2 he
  · intro hvalid
    exact (Config.validate_eq_none_iff c).mpr
      ⟨hvalid.1, hvalid.2.1, hvalid.2.2.1, hvalid.2.2.2.1, hvalid.2.2.2.2.2⟩

/-- Witness for C12: a config with mode `relay`, a direct config without
password, a proxy config without proxy port, and a complete proxy config. -/
theorem config_validate_witness :
    (⟨str "relay", [], [], ⟨str "h", 22, str "u", str "p"⟩, ⟨1080, str "socks5"⟩, str "x", 30⟩
      : Config).validate ≠ none ∧
    (⟨str "direct", [], [], ⟨str "h", 22, str "u", []⟩, ⟨1080, str "socks5"⟩, str "x", 30⟩
      : Config).validate ≠ none ∧
    (⟨str "proxy", str "q", [], ⟨str "h", 22, str "u", str "p"⟩, ⟨1080, str "socks5"⟩,
      str "x", 30⟩ : Config).validate ≠ none ∧
    (⟨str "proxy", str "q", str "80", ⟨str "h", 22, str "u", str "p"⟩, ⟨1080, str "socks5"⟩,
      str "x", 30⟩ : Config).validate = none :=
  ⟨(config_validate
      ⟨str "relay", [], [], ⟨str "h", 22, str "u", str "p"⟩, ⟨1080, str "socks5"⟩, str "x", 30⟩).1
      (by decide),
   (config_validate
      ⟨str "direct", [], [], ⟨str "h", 22, str "u", []⟩, ⟨1080, str "socks5"⟩, str "x", 30⟩).2.1
      (Or.inr (Or.inr rfl)),
   (config_validate
      ⟨str "proxy", str "q", [], ⟨str "h", 22, str "u", str "p"⟩, ⟨1080, str "socks5"⟩,
        str "x", 30⟩).2.2.1 ⟨rfl, Or.inr rfl⟩,
   (config_validate
      ⟨str "proxy", str "q", str "80", ⟨str "h", 22, str "u", str "p"⟩, ⟨1080, str "socks5"⟩,
        str "x", 30⟩).2.2.2 (by decide)⟩

/-- C13 (evaluation at the failing input): the sample proxy-mode config with
its `httpPayload` left empty passes validation, `LoadConfig` hands it on, and
`ProxyEstablisher.Establish` calls `EstablishWSTunnel` with the empty payload. -/
theorem config_proxy_mode_empty_payload_accepted :
    (⟨str "proxy", str "proxy.example.com", str "80",
        ⟨str "target.example.com", 80, str "user", str "password"⟩, ⟨1080, str "socks5"⟩,
        [], 30⟩ : Config).validate = none ∧
    LoadConfig ⟨str "proxy", str "proxy.example.com", str "80",
        ⟨str "target.example.com", 80, str "user", str "password"⟩, ⟨1080, str "socks5"⟩,
        [], 30⟩ =
      .ok ⟨str "proxy", str "proxy.example.com", str "80",
        ⟨str "target.example.com", 80, str "user", str "password"⟩, ⟨1080, str "socks5"⟩,
        [], 30⟩ ∧
    (Connection.GetEstablisher (str "proxy")).map (fun establish => establish true
        ⟨str "proxy", str "proxy.example.com", str "80",
          ⟨str "target.example.com", 80, str "user", str "password"⟩, ⟨1080, str "socks5"⟩,
          [], 30⟩) =
      some [Connection.Call.dialTimeout (str "proxy.example.com:80") 30,
        Connection.Call.EstablishWSTunnel [] (str "target.example.com") (str "80")
          (str "target.example.com")] := by
  refine ⟨by decide, ?_, by decide⟩
  rfl

/-- No proxy-mode config is rejected for its `httpPayload`: when a proxy-mode
config passes validation, so does the same config with the payload emptied,
and `ProxyEstablisher.Establish` then passes the empty payload on. -/
theorem Config.proxy_payload_unchecked (c : Config) (hvalid : c.validate = none) :
    ({ c with HTTPPayload := [] } : Config).validate = none ∧
    Connection.ProxyEstablisher.Establish true { c with HTTPPayload := [] } =
      [if c.ProxyPort = str "443" then
          Connection.Call.tlsDial c.ConnectionTimeout (JoinHostPort c.ProxyHost c.ProxyPort)
            c.ProxyHost
        else Connection.Call.dialTimeout (JoinHostPort c.ProxyHost c.ProxyPort)
          c.ConnectionTimeout,
        Connection.Call.EstablishWSTunnel [] c.SSH.Host (Itoa c.SSH.Port) c.SSH.Host] := by
  refine ⟨hvalid, ?_⟩
  simp [Connection.ProxyEstablisher.Establish]

end Tunn
